import Mathlib

/-! Shallow embedding of the wallet consensus-synchronization engine of the
Sia repository (package wallet: updateConfirmedSet, revertHistory,
applyHistory, ProcessConsensusChange, ReceiveUpdatedUnconfirmedTransactions),
together with theorems checking the natural-language specification against it.

Modelling conventions:
- Hashes and identifiers (unlock hashes, output identifiers, transaction
  identifiers) are opaque values modelled as natural numbers.  A computed
  hash such as txn.SiacoinOutputID(i) or UnlockConditions.UnlockHash() is
  carried as a field paired with the data it is derived from.
- Go maps are modelled as functions into Option; a Go map read, which
  defaults to the zero value for an absent key, is modelled with getD 0.
- types.Currency is an unbounded unsigned integer, modelled as Nat, with
  truncated subtraction for Currency.Sub.
- types.BlockHeight is a uint64; height arithmetic is taken mod 2 ^ 64, so
  the Go decrement of height 0 wraps around exactly as uint64 does.
- Code paths that reach a Go panic (the build.DEBUG invariant checks in
  updateConfirmedSet, and the out-of-range reslice in revertHistory when the
  processed-transaction log is empty) are modelled in the Except monad.  The
  debug parameter is the value of the build.DEBUG constant: the build package
  is outside the embedded sources; DEBUG is false in standard release builds
  and true only under the dev, testing or debug build configurations.
- The ThreadGroup registration outcome (w.tg.Add succeeding or failing
  because Close already ran) is modelled as a Bool input; the mutex and the
  asynchronous threadedDefragWallet task are concurrency and stay outside
  the embedding.
-/

abbrev UnlockHash := Nat
abbrev OutputID := Nat
abbrev TxId := Nat
abbrev Currency := Nat
abbrev BlockHeight := Nat
abbrev Timestamp := Nat

/-- Modulus of the Go uint64 type, used for block-height arithmetic. -/
def U64MOD : Nat := 2 ^ 64

/-- Reduce a natural number mod 2 ^ 64 (Go uint64 arithmetic). -/
def u64 (n : Nat) : Nat := n % U64MOD

/-- math.MaxUint64, the sentinel used for unconfirmed heights and
timestamps. -/
def maxU64 : Nat := U64MOD - 1

/-- types.MaturityDelay for the standard release (144 blocks). -/
def MaturityDelay : Nat := 144

/-- modules.DiffApply and modules.DiffRevert. -/
inductive DiffDirection where
  | apply
  | revert
deriving DecidableEq, Repr

/-- types.SiacoinOutput: a value owned by an unlock hash. -/
structure SiacoinOutput where
  value : Currency
  unlockHash : UnlockHash
deriving DecidableEq, Repr

/-- types.SiafundOutput: value, owner, and the siafund pool level recorded
at creation time (ClaimStart). -/
structure SiafundOutput where
  value : Currency
  unlockHash : UnlockHash
  claimStart : Currency
deriving DecidableEq, Repr

/-- types.SiacoinInput: the parent output identifier and the unlock hash of
its unlock conditions (sci.UnlockConditions.UnlockHash() is carried as a
field). -/
structure SiacoinInput where
  parentID : OutputID
  unlockHash : UnlockHash
deriving DecidableEq, Repr

/-- types.SiafundInput: parent identifier, unlock hash of the unlock
conditions, and the claim unlock hash. -/
structure SiafundInput where
  parentID : OutputID
  unlockHash : UnlockHash
  claimUnlockHash : UnlockHash
deriving DecidableEq, Repr

/-- types.Transaction, restricted to the fields this code reads.  The id
field is txn.ID(); each output is paired with its derived output identifier
(txn.SiacoinOutputID(i) respectively txn.SiafundOutputID(i)). -/
structure Transaction where
  id : TxId
  siacoinInputs : List SiacoinInput
  siacoinOutputs : List (OutputID × SiacoinOutput)
  siafundInputs : List SiafundInput
  siafundOutputs : List (OutputID × SiafundOutput)
  minerFees : List Currency
deriving DecidableEq, Repr

/-- The zero value of types.Transaction, used as the payload placeholder of
a miner-payout processed transaction. -/
def emptyGoTransaction : Transaction :=
  { id := 0, siacoinInputs := [], siacoinOutputs := [], siafundInputs := [],
    siafundOutputs := [], minerFees := [] }

/-- types.Block, restricted to the fields this code reads.  The id field is
types.TransactionID(block.ID()); each miner payout is paired with its
derived identifier block.MinerPayoutID(i). -/
structure Block where
  id : TxId
  timestamp : Timestamp
  minerPayouts : List (OutputID × SiacoinOutput)
  transactions : List Transaction
deriving DecidableEq, Repr

/-- modules.SiacoinOutputDiff. -/
structure SiacoinOutputDiff where
  direction : DiffDirection
  id : OutputID
  siacoinOutput : SiacoinOutput
deriving DecidableEq, Repr

/-- modules.SiafundOutputDiff. -/
structure SiafundOutputDiff where
  direction : DiffDirection
  id : OutputID
  siafundOutput : SiafundOutput
deriving DecidableEq, Repr

/-- modules.SiafundPoolDiff: the recorded pool level before (Previous) and
after (Adjusted) the block. -/
structure SiafundPoolDiff where
  direction : DiffDirection
  previous : Currency
  adjusted : Currency
deriving DecidableEq, Repr

/-- modules.ConsensusChange, restricted to the fields this code reads. -/
structure ConsensusChange where
  siacoinOutputDiffs : List SiacoinOutputDiff
  siafundOutputDiffs : List SiafundOutputDiff
  siafundPoolDiffs : List SiafundPoolDiff
  revertedBlocks : List Block
  appliedBlocks : List Block
  synced : Bool
deriving DecidableEq, Repr

/-- Fund-type specifiers (types.SpecifierMinerPayout and friends). -/
inductive FundType where
  | minerPayout
  | siacoinInput
  | siacoinOutput
  | siafundInput
  | claimOutput
  | siafundOutput
  | minerFee
deriving DecidableEq, Repr

/-- modules.ProcessedInput. -/
structure ProcessedInput where
  fundType : FundType
  walletAddress : Bool
  relatedAddress : UnlockHash
  value : Currency
deriving DecidableEq, Repr

/-- modules.ProcessedOutput. -/
structure ProcessedOutput where
  fundType : FundType
  maturityHeight : BlockHeight
  walletAddress : Bool
  relatedAddress : UnlockHash
  value : Currency
deriving DecidableEq, Repr

/-- modules.ProcessedTransaction. -/
structure ProcessedTransaction where
  transaction : Transaction
  transactionID : TxId
  confirmationHeight : BlockHeight
  confirmationTimestamp : Timestamp
  inputs : List ProcessedInput
  outputs : List ProcessedOutput
deriving DecidableEq, Repr

/-- The wallet state touched by this code.  keys is the owned-address set
(only membership is read here); the two output maps are the Output Ledger;
historicOutputs and historicClaimStarts are the Historical Value Cache;
processedTransactions with processedTransactionMap are the confirmed log
and its identifier index (the Go map stores a pointer to the log entry; the
model stores the entry value). -/
@[ext]
structure Wallet where
  keys : UnlockHash → Bool
  siacoinOutputs : OutputID → Option SiacoinOutput
  siafundOutputs : OutputID → Option SiafundOutput
  siafundPool : Currency
  historicOutputs : OutputID → Option Currency
  historicClaimStarts : OutputID → Option Currency
  consensusSetHeight : BlockHeight
  processedTransactions : List ProcessedTransaction
  processedTransactionMap : TxId → Option ProcessedTransaction
  unconfirmedProcessedTransactions : List ProcessedTransaction

/-! The Diff Applier: updateConfirmedSet, lines 14 to 62 of the wallet
update code.  Each siacoin or siafund output diff is skipped when its
address is not owned; otherwise apply inserts and revert deletes, and under
build.DEBUG a double insert or a missing delete panics.  Pool diffs set the
pool to the recorded Adjusted value on apply and the recorded Previous
value on revert. -/

/-- One siacoin output diff without the DEBUG checks (the mutation the code
performs whenever it does not panic). -/
def scoStepPure (keys : UnlockHash → Bool) (m : OutputID → Option SiacoinOutput)
    (d : SiacoinOutputDiff) : OutputID → Option SiacoinOutput :=
  if keys d.siacoinOutput.unlockHash then
    match d.direction with
    | .apply => Function.update m d.id (some d.siacoinOutput)
    | .revert => Function.update m d.id none
  else m

/-- One siacoin output diff, lines 15 to 34: ownership filter, then the
direction semantics with the DEBUG presence checks. -/
def applyScoDiff (debug : Bool) (keys : UnlockHash → Bool)
    (m : OutputID → Option SiacoinOutput) (d : SiacoinOutputDiff) :
    Except String (OutputID → Option SiacoinOutput) :=
  if keys d.siacoinOutput.unlockHash then
    match d.direction with
    | .apply =>
        if debug && (m d.id).isSome then
          .error "adding an existing output to wallet"
        else
          .ok (Function.update m d.id (some d.siacoinOutput))
    | .revert =>
        if debug && !(m d.id).isSome then
          .error "deleting nonexisting output from wallet"
        else
          .ok (Function.update m d.id none)
  else .ok m

/-- One siafund output diff without the DEBUG checks. -/
def sfoStepPure (keys : UnlockHash → Bool) (m : OutputID → Option SiafundOutput)
    (d : SiafundOutputDiff) : OutputID → Option SiafundOutput :=
  if keys d.siafundOutput.unlockHash then
    match d.direction with
    | .apply => Function.update m d.id (some d.siafundOutput)
    | .revert => Function.update m d.id none
  else m

/-- One siafund output diff, lines 35 to 54. -/
def applySfoDiff (debug : Bool) (keys : UnlockHash → Bool)
    (m : OutputID → Option SiafundOutput) (d : SiafundOutputDiff) :
    Except String (OutputID → Option SiafundOutput) :=
  if keys d.siafundOutput.unlockHash then
    match d.direction with
    | .apply =>
        if debug && (m d.id).isSome then
          .error "adding an existing output to wallet"
        else
          .ok (Function.update m d.id (some d.siafundOutput))
    | .revert =>
        if debug && !(m d.id).isSome then
          .error "deleting nonexisting output from wallet"
        else
          .ok (Function.update m d.id none)
  else .ok m

/-- One siafund pool diff, lines 55 to 61: apply installs the recorded
Adjusted value, revert installs the recorded Previous value. -/
def poolStep (p : Currency) (d : SiafundPoolDiff) : Currency :=
  match d.direction with
  | .apply => d.adjusted
  | .revert => d.previous

/-- updateConfirmedSet, lines 14 to 62.  The three loops touch disjoint
wallet fields (the siacoin map, the siafund map, the pool), so the
sequential Go loops are modelled as three folds whose results are written
back together. -/
def updateConfirmedSet (debug : Bool) (cc : ConsensusChange) (w : Wallet) :
    Except String Wallet := do
  let sc ← cc.siacoinOutputDiffs.foldlM (applyScoDiff debug w.keys) w.siacoinOutputs
  let sf ← cc.siafundOutputDiffs.foldlM (applySfoDiff debug w.keys) w.siafundOutputs
  let p := cc.siafundPoolDiffs.foldl poolStep w.siafundPool
  return { w with siacoinOutputs := sc, siafundOutputs := sf, siafundPool := p }

/-- The mutation updateConfirmedSet performs when no DEBUG panic fires
(with debug set to false this is the whole behaviour). -/
def updateConfirmedSetPure (cc : ConsensusChange) (w : Wallet) : Wallet :=
  { w with
    siacoinOutputs := cc.siacoinOutputDiffs.foldl (scoStepPure w.keys) w.siacoinOutputs
    siafundOutputs := cc.siafundOutputDiffs.foldl (sfoStepPure w.keys) w.siafundOutputs
    siafundPool := cc.siafundPoolDiffs.foldl poolStep w.siafundPool }

/-! The History Recorder revert pass: revertHistory, lines 66 to 94. -/

/-- One transaction of a reverted block, lines 75 to 80: pop the log tail
and delete its index entry exactly when the log is nonempty and the tail
bears this transaction's identifier. -/
def revertTxn (w : Wallet) (txn : Transaction) : Wallet :=
  match w.processedTransactions.getLast? with
  | some lastPT =>
      if txn.id = lastPT.transactionID then
        { w with
          processedTransactions := w.processedTransactions.dropLast
          processedTransactionMap := Function.update w.processedTransactionMap txn.id none }
      else w
  | none => w

/-- One reverted block, lines 67 to 93: unwind the transactions from last
to first, then, when some miner payout address is owned, pop the log tail
unconditionally (the Go reslice faults when the log is empty) and delete
the index entry keyed by the block identifier; finally decrement the
tracked height (uint64 wrap-around). -/
def revertBlock (w : Wallet) (block : Block) : Except String Wallet := do
  let w1 := block.transactions.reverse.foldl revertTxn w
  let w2 ←
    if block.minerPayouts.any (fun mp => w1.keys mp.2.unlockHash) then
      match w1.processedTransactions.getLast? with
      | none => Except.error "runtime error: slice bounds out of range"
      | some _ =>
          Except.ok { w1 with
            processedTransactions := w1.processedTransactions.dropLast
            processedTransactionMap := Function.update w1.processedTransactionMap block.id none }
    else Except.ok w1
  return { w2 with consensusSetHeight := u64 (w2.consensusSetHeight + (U64MOD - 1)) }

/-- revertHistory, lines 66 to 94. -/
def revertHistory (cc : ConsensusChange) (w : Wallet) : Except String Wallet :=
  cc.revertedBlocks.foldlM revertBlock w

/-! The History Recorder apply pass: applyHistory, lines 98 to 218.  The
per-transaction loops thread an accumulator holding the entry under
construction, its relevance flag, and the Historical Value Cache. -/

/-- Accumulator of the per-transaction build loops of applyHistory (and of
the unconfirmed builder, which shares the siacoin loops verbatim). -/
structure TxnAcc where
  inputs : List ProcessedInput
  outputs : List ProcessedOutput
  relevant : Bool
  historicOutputs : OutputID → Option Currency
  historicClaimStarts : OutputID → Option Currency

/-- One siacoin input, lines 144 to 155 (and identically lines 264 to 275
of the unconfirmed builder): the value is resolved from the Historical
Value Cache, with the Go zero value for an absent key. -/
def sciStep (keys : UnlockHash → Bool) (a : TxnAcc) (sci : SiacoinInput) : TxnAcc :=
  let ex := keys sci.unlockHash
  { a with
    relevant := a.relevant || ex
    inputs := a.inputs ++
      [{ fundType := .siacoinInput, walletAddress := ex,
         relatedAddress := sci.unlockHash,
         value := (a.historicOutputs sci.parentID).getD 0 }] }

/-- One siacoin output, lines 156 to 169 (and, with the sentinel maturity
height, lines 276 to 289 of the unconfirmed builder): record the output
and write its value into the Historical Value Cache. -/
def scoStep (keys : UnlockHash → Bool) (maturity : BlockHeight) (a : TxnAcc)
    (p : OutputID × SiacoinOutput) : TxnAcc :=
  let ex := keys p.2.unlockHash
  { a with
    relevant := a.relevant || ex
    outputs := a.outputs ++
      [{ fundType := .siacoinOutput, maturityHeight := maturity,
         walletAddress := ex, relatedAddress := p.2.unlockHash,
         value := p.2.value }]
    historicOutputs := Function.update a.historicOutputs p.1 (some p.2.value) }

/-- One siafund input, lines 170 to 190: record the input with its cached
value, and synthesize the claim output whose value is the pool delta since
the cached claim start times the cached quantity (Currency.Sub is truncated
subtraction on the unsigned Currency). -/
def sfiStep (keys : UnlockHash → Bool) (pool : Currency) (height : BlockHeight)
    (a : TxnAcc) (sfi : SiafundInput) : TxnAcc :=
  let ex := keys sfi.unlockHash
  let sfiValue := (a.historicOutputs sfi.parentID).getD 0
  let claimValue := (pool - (a.historicClaimStarts sfi.parentID).getD 0) * sfiValue
  { a with
    relevant := a.relevant || ex
    inputs := a.inputs ++
      [{ fundType := .siafundInput, walletAddress := ex,
         relatedAddress := sfi.unlockHash, value := sfiValue }]
    outputs := a.outputs ++
      [{ fundType := .claimOutput, maturityHeight := u64 (height + MaturityDelay),
         walletAddress := ex, relatedAddress := sfi.claimUnlockHash,
         value := claimValue }] }

/-- One siafund output, lines 191 to 205: record the output and write its
value and claim start into the Historical Value Cache. -/
def sfoStep (keys : UnlockHash → Bool) (maturity : BlockHeight) (a : TxnAcc)
    (p : OutputID × SiafundOutput) : TxnAcc :=
  let ex := keys p.2.unlockHash
  { a with
    relevant := a.relevant || ex
    outputs := a.outputs ++
      [{ fundType := .siafundOutput, maturityHeight := maturity,
         walletAddress := ex, relatedAddress := p.2.unlockHash,
         value := p.2.value }]
    historicOutputs := Function.update a.historicOutputs p.1 (some p.2.value)
    historicClaimStarts := Function.update a.historicClaimStarts p.1 (some p.2.claimStart) }

/-- One miner fee, lines 206 to 211 (and lines 290 to 295 of the
unconfirmed builder): recorded as an output with Go zero values for the
unset fields. -/
def feeStep (a : TxnAcc) (fee : Currency) : TxnAcc :=
  { a with
    outputs := a.outputs ++
      [{ fundType := .minerFee, maturityHeight := 0, walletAddress := false,
         relatedAddress := 0, value := fee }] }

/-- The five build loops of one confirmed transaction, lines 144 to 211, in
source order: siacoin inputs, siacoin outputs, siafund inputs, siafund
outputs, miner fees. -/
def buildTxnAcc (keys : UnlockHash → Bool) (pool : Currency) (height : BlockHeight)
    (houts : OutputID → Option Currency) (hclaims : OutputID → Option Currency)
    (txn : Transaction) : TxnAcc :=
  let a0 : TxnAcc := ⟨[], [], false, houts, hclaims⟩
  let a1 := txn.siacoinInputs.foldl (sciStep keys) a0
  let a2 := txn.siacoinOutputs.foldl (scoStep keys height) a1
  let a3 := txn.siafundInputs.foldl (sfiStep keys pool height) a2
  let a4 := txn.siafundOutputs.foldl (sfoStep keys height) a3
  txn.minerFees.foldl feeStep a4

/-- The processed-transaction entry the apply pass builds for one
transaction of one applied block, lines 138 to 211 (w is the wallet state
when the transaction is reached; the height was already incremented for the
block). -/
def applyTxnPT (w : Wallet) (block : Block) (txn : Transaction) : ProcessedTransaction :=
  let a := buildTxnAcc w.keys w.siafundPool w.consensusSetHeight
    w.historicOutputs w.historicClaimStarts txn
  { transaction := txn, transactionID := txn.id,
    confirmationHeight := w.consensusSetHeight,
    confirmationTimestamp := block.timestamp,
    inputs := a.inputs, outputs := a.outputs }

/-- One transaction of an applied block, lines 128 to 216: build the entry,
commit the Historical Value Cache writes, and append and index the entry
exactly when it is relevant. -/
def applyTxn (block : Block) (w : Wallet) (txn : Transaction) : Wallet :=
  let a := buildTxnAcc w.keys w.siafundPool w.consensusSetHeight
    w.historicOutputs w.historicClaimStarts txn
  let pt := applyTxnPT w block txn
  let w1 := { w with
    historicOutputs := a.historicOutputs
    historicClaimStarts := a.historicClaimStarts }
  if a.relevant then
    { w1 with
      processedTransactions := w1.processedTransactions ++ [pt]
      processedTransactionMap :=
        Function.update w1.processedTransactionMap pt.transactionID (some pt) }
  else w1

/-- Accumulator of the miner-payout loop of applyHistory. -/
structure MpAcc where
  outputs : List ProcessedOutput
  relevant : Bool
  historicOutputs : OutputID → Option Currency

/-- One miner payout, lines 109 to 122: record the payout with maturity
height equal to the incremented height plus the maturity delay, and write
its value into the Historical Value Cache. -/
def mpStep (keys : UnlockHash → Bool) (height : BlockHeight) (a : MpAcc)
    (mp : OutputID × SiacoinOutput) : MpAcc :=
  let ex := keys mp.2.unlockHash
  { outputs := a.outputs ++
      [{ fundType := .minerPayout, maturityHeight := u64 (height + MaturityDelay),
         walletAddress := ex, relatedAddress := mp.2.unlockHash,
         value := mp.2.value }]
    relevant := a.relevant || ex
    historicOutputs := Function.update a.historicOutputs mp.1 (some mp.2.value) }

/-- One applied block, lines 99 to 216: increment the tracked height, build
the miner-payout entry (empty transaction payload, identifier equal to the
block identifier), append and index it exactly when some payout address is
owned, then process the block's transactions in order. -/
def applyBlock (w : Wallet) (block : Block) : Wallet :=
  let w0 := { w with consensusSetHeight := u64 (w.consensusSetHeight + 1) }
  let ma := block.minerPayouts.foldl (mpStep w0.keys w0.consensusSetHeight)
    ⟨[], false, w0.historicOutputs⟩
  let minerPT : ProcessedTransaction :=
    { transaction := emptyGoTransaction, transactionID := block.id,
      confirmationHeight := w0.consensusSetHeight,
      confirmationTimestamp := block.timestamp,
      inputs := [], outputs := ma.outputs }
  let w1 := { w0 with historicOutputs := ma.historicOutputs }
  let w2 :=
    if ma.relevant then
      { w1 with
        processedTransactions := w1.processedTransactions ++ [minerPT]
        processedTransactionMap :=
          Function.update w1.processedTransactionMap minerPT.transactionID (some minerPT) }
    else w1
  block.transactions.foldl (applyTxn block) w2

/-- applyHistory, lines 98 to 218. -/
def applyHistory (cc : ConsensusChange) (w : Wallet) : Wallet :=
  cc.appliedBlocks.foldl applyBlock w

/-- ProcessConsensusChange, lines 222 to 239: a failed ThreadGroup
registration makes the call a silent no-op; otherwise the Diff Applier,
the revert pass and the apply pass run in order under the lock.  The
conditional asynchronous defrag dispatch does not touch the state modelled
here. -/
def ProcessConsensusChange (debug : Bool) (tgAddOk : Bool) (cc : ConsensusChange)
    (w : Wallet) : Except String Wallet :=
  if tgAddOk then do
    let w1 ← updateConfirmedSet debug cc w
    let w2 ← revertHistory cc w1
    return applyHistory cc w2
  else .ok w

/-! The Unconfirmed View Builder: ReceiveUpdatedUnconfirmedTransactions,
lines 243 to 300.  Only the siacoin input loop, the siacoin output loop
(with the MaxUint64 sentinel maturity) and the miner fee loop run; there is
no siafund processing. -/

/-- The three build loops of one unconfirmed candidate transaction, lines
264 to 295. -/
def buildUnconfirmedAcc (keys : UnlockHash → Bool)
    (houts : OutputID → Option Currency) (hclaims : OutputID → Option Currency)
    (txn : Transaction) : TxnAcc :=
  let a0 : TxnAcc := ⟨[], [], false, houts, hclaims⟩
  let a1 := txn.siacoinInputs.foldl (sciStep keys) a0
  let a2 := txn.siacoinOutputs.foldl (scoStep keys maxU64) a1
  txn.minerFees.foldl feeStep a2

/-- The entry the unconfirmed builder constructs for one candidate
transaction, lines 258 to 295: confirmation height and timestamp are the
MaxUint64 sentinel. -/
def receiveTxnPT (w : Wallet) (txn : Transaction) : ProcessedTransaction :=
  let a := buildUnconfirmedAcc w.keys w.historicOutputs w.historicClaimStarts txn
  { transaction := txn, transactionID := txn.id,
    confirmationHeight := maxU64, confirmationTimestamp := maxU64,
    inputs := a.inputs, outputs := a.outputs }

/-- One candidate transaction of the unconfirmed rebuild, lines 254 to 298:
commit the Historical Value Cache writes and append the entry exactly when
it is relevant. -/
def receiveTxn (w : Wallet) (txn : Transaction) : Wallet :=
  let a := buildUnconfirmedAcc w.keys w.historicOutputs w.historicClaimStarts txn
  let pt := receiveTxnPT w txn
  let w1 := { w with historicOutputs := a.historicOutputs }
  if a.relevant then
    { w1 with unconfirmedProcessedTransactions :=
        w1.unconfirmedProcessedTransactions ++ [pt] }
  else w1

/-- ReceiveUpdatedUnconfirmedTransactions, lines 243 to 300: a failed
ThreadGroup registration makes the call a silent no-op; otherwise the
previous unconfirmed view is discarded and rebuilt from the candidates. -/
def ReceiveUpdatedUnconfirmedTransactions (tgAddOk : Bool) (txns : List Transaction)
    (w : Wallet) : Wallet :=
  if tgAddOk then
    txns.foldl receiveTxn { w with unconfirmedProcessedTransactions := [] }
  else w

/-! Derived definitions used to state the claims: execution-trace predicates
over the embedded functions, mirror-image consensus changes, the index
consistency invariant, and the concrete inputs of the counterexamples and
witnesses. -/

/-- The recorded value a pool diff installs: Adjusted on apply, Previous on
revert. -/
def poolVal (d : SiafundPoolDiff) : Currency :=
  match d.direction with
  | .apply => d.adjusted
  | .revert => d.previous

/-- Cache writes performed by the siacoin output loop. -/
def scoWrites (l : List (OutputID × SiacoinOutput)) (h : OutputID → Option Currency) :
    OutputID → Option Currency :=
  l.foldl (fun h p => Function.update h p.1 (some p.2.value)) h

/-- Value-cache writes performed by the siafund output loop. -/
def sfoWritesV (l : List (OutputID × SiafundOutput)) (h : OutputID → Option Currency) :
    OutputID → Option Currency :=
  l.foldl (fun h p => Function.update h p.1 (some p.2.value)) h

/-- Claim-start writes performed by the siafund output loop. -/
def sfoWritesC (l : List (OutputID × SiafundOutput)) (h : OutputID → Option Currency) :
    OutputID → Option Currency :=
  l.foldl (fun h p => Function.update h p.1 (some p.2.claimStart)) h

/-- One siacoin diff is, against the given ledger, an invariant violation:
its address is owned and it applies an identifier already present or
reverts an identifier absent. -/
def scoViolHead (keys : UnlockHash → Bool) (m : OutputID → Option SiacoinOutput)
    (d : SiacoinOutputDiff) : Bool :=
  keys d.siacoinOutput.unlockHash &&
    (match d.direction with
     | .apply => (m d.id).isSome
     | .revert => !(m d.id).isSome)

/-- Some siacoin diff of the list, at its processing point, applies an
owned identifier already present or reverts an owned identifier absent. -/
def scoViol (keys : UnlockHash → Bool) (m : OutputID → Option SiacoinOutput) :
    List SiacoinOutputDiff → Bool
  | [] => false
  | d :: ds => scoViolHead keys m d || scoViol keys (scoStepPure keys m d) ds

/-- One siafund diff is, against the given ledger, an invariant violation. -/
def sfoViolHead (keys : UnlockHash → Bool) (m : OutputID → Option SiafundOutput)
    (d : SiafundOutputDiff) : Bool :=
  keys d.siafundOutput.unlockHash &&
    (match d.direction with
     | .apply => (m d.id).isSome
     | .revert => !(m d.id).isSome)

/-- Some siafund diff of the list, at its processing point, applies an
owned identifier already present or reverts an owned identifier absent. -/
def sfoViol (keys : UnlockHash → Bool) (m : OutputID → Option SiafundOutput) :
    List SiafundOutputDiff → Bool
  | [] => false
  | d :: ds => sfoViolHead keys m d || sfoViol keys (sfoStepPure keys m d) ds

/-- Swap apply and revert. -/
def flipDirection : DiffDirection → DiffDirection
  | .apply => .revert
  | .revert => .apply

/-- The mirror image of an applied block's siacoin diff list, as the
consensus layer delivers it when the block is reverted: directions flipped,
order reversed. -/
def mirrorSco (ds : List SiacoinOutputDiff) : List SiacoinOutputDiff :=
  (ds.map (fun d => { d with direction := flipDirection d.direction })).reverse

/-- Mirror image of a siafund diff list. -/
def mirrorSfo (ds : List SiafundOutputDiff) : List SiafundOutputDiff :=
  (ds.map (fun d => { d with direction := flipDirection d.direction })).reverse

/-- Mirror image of a pool diff list. -/
def mirrorPool (ds : List SiafundPoolDiff) : List SiafundPoolDiff :=
  (ds.map (fun d => { d with direction := flipDirection d.direction })).reverse

/-- The siacoin diff list is consistent with the ledger it is applied to:
every owned apply hits an absent identifier and every owned revert hits the
identifier with exactly the recorded payload (checked at each diff's
processing point). -/
def scoRoundOK (keys : UnlockHash → Bool) (m : OutputID → Option SiacoinOutput) :
    List SiacoinOutputDiff → Bool
  | [] => true
  | d :: ds =>
      (if keys d.siacoinOutput.unlockHash then
        match d.direction with
        | .apply => decide (m d.id = none)
        | .revert => decide (m d.id = some d.siacoinOutput)
       else true) &&
      scoRoundOK keys (scoStepPure keys m d) ds

/-- Siafund version of the diff-consistency check. -/
def sfoRoundOK (keys : UnlockHash → Bool) (m : OutputID → Option SiafundOutput) :
    List SiafundOutputDiff → Bool
  | [] => true
  | d :: ds =>
      (if keys d.siafundOutput.unlockHash then
        match d.direction with
        | .apply => decide (m d.id = none)
        | .revert => decide (m d.id = some d.siafundOutput)
       else true) &&
      sfoRoundOK keys (sfoStepPure keys m d) ds

/-- The pool diff list starts from the current pool level: reverting its
first diff restores the present value. -/
def poolRoundOK (p : Currency) : List SiafundPoolDiff → Bool
  | [] => true
  | d :: _ => decide (poolVal { d with direction := flipDirection d.direction } = p)

/-- Index consistency: every entry of the identifier index is a live
element of the confirmed log bearing that identifier. -/
def IndexOK (w : Wallet) : Prop :=
  ∀ id pt, w.processedTransactionMap id = some pt →
    pt.transactionID = id ∧ pt ∈ w.processedTransactions

/-- The miner-payout pop of a reverted block is about to hit the entry it
is meant to remove: whenever some payout address is owned, the log tail
at that point exists and bears the block's identifier. -/
def minerPopSafe (w : Wallet) (block : Block) : Bool :=
  let w1 := block.transactions.reverse.foldl revertTxn w
  !(block.minerPayouts.any (fun mp => w1.keys mp.2.unlockHash)) ||
    (match w1.processedTransactions.getLast? with
     | some e => decide (e.transactionID = block.id)
     | none => false)

/-- Every reverted block's miner-payout pop is safe, along the actual
execution of the revert pass. -/
def RevertSafe (w : Wallet) : List Block → Bool
  | [] => true
  | b :: bs =>
      minerPopSafe w b &&
      RevertSafe (match revertBlock w b with | .ok v => v | .error _ => w) bs

/-- Replace the Output Ledger fields (the two output maps and the pool):
the shape in which updateConfirmedSet changes a wallet. -/
def setLedger (w : Wallet) (a : OutputID → Option SiacoinOutput)
    (b : OutputID → Option SiafundOutput) (c : Currency) : Wallet :=
  { w with siacoinOutputs := a, siafundOutputs := b, siafundPool := c }

/-- A wallet with no owned addresses and empty state, base of the concrete
inputs below. -/
def emptyWallet : Wallet :=
  { keys := fun _ => false
    siacoinOutputs := fun _ => none
    siafundOutputs := fun _ => none
    siafundPool := 0
    historicOutputs := fun _ => none
    historicClaimStarts := fun _ => none
    consensusSetHeight := 0
    processedTransactions := []
    processedTransactionMap := fun _ => none
    unconfirmedProcessedTransactions := [] }

/-- Concrete wallet owning address 1 that already holds siacoin output 7. -/
def wC1 : Wallet :=
  { emptyWallet with
    keys := fun a => a == 1
    siacoinOutputs := Function.update (fun _ => none) 7 (some ⟨100, 1⟩) }

/-- Concrete consensus change whose only diff applies identifier 7, which
wC1 already holds. -/
def ccC1 : ConsensusChange :=
  { siacoinOutputDiffs := [⟨.apply, 7, ⟨50, 1⟩⟩]
    siafundOutputDiffs := []
    siafundPoolDiffs := []
    revertedBlocks := []
    appliedBlocks := []
    synced := false }

/-- Concrete log entry bearing identifier 5. -/
def eC4 : ProcessedTransaction :=
  { transaction := emptyGoTransaction, transactionID := 5,
    confirmationHeight := 1, confirmationTimestamp := 0,
    inputs := [], outputs := [] }

/-- Concrete wallet owning address 3 whose log tail bears identifier 5. -/
def wC4 : Wallet :=
  { emptyWallet with
    keys := fun a => a == 3
    consensusSetHeight := 1
    processedTransactions := [eC4]
    processedTransactionMap := Function.update (fun _ => none) 5 (some eC4) }

/-- Concrete reverted block with identifier 9 and a payout owned by wC4;
its identifier differs from the tail identifier 5. -/
def bC4 : Block :=
  { id := 9, timestamp := 0, minerPayouts := [(21, ⟨60, 3⟩)], transactions := [] }

/-- Concrete log entry bearing identifier 9, for the C4 witness. -/
def eW4 : ProcessedTransaction :=
  { transaction := emptyGoTransaction, transactionID := 9,
    confirmationHeight := 1, confirmationTimestamp := 0,
    inputs := [], outputs := [] }

/-- Concrete wallet owning address 3 whose log tail bears identifier 9. -/
def wW4 : Wallet :=
  { emptyWallet with
    keys := fun a => a == 3
    consensusSetHeight := 1
    processedTransactions := [eW4]
    processedTransactionMap := Function.update (fun _ => none) 9 (some eW4) }

/-- Concrete reverted block with identifier 9 matching the wW4 log tail. -/
def bW4 : Block :=
  { id := 9, timestamp := 0, minerPayouts := [(21, ⟨60, 3⟩)], transactions := [] }

/-- Concrete log entry bearing identifier 5, indexed in wC5. -/
def eC5 : ProcessedTransaction :=
  { transaction := emptyGoTransaction, transactionID := 5,
    confirmationHeight := 2, confirmationTimestamp := 0,
    inputs := [], outputs := [] }

/-- Concrete wallet owning address 3 with one indexed log entry of
identifier 5. -/
def wC5 : Wallet :=
  { emptyWallet with
    keys := fun a => a == 3
    consensusSetHeight := 2
    processedTransactions := [eC5]
    processedTransactionMap := Function.update (fun _ => none) 5 (some eC5) }

/-- Concrete block (identifier 9, owned payout) that was never applied on
top of wC5's log. -/
def bC5 : Block :=
  { id := 9, timestamp := 0, minerPayouts := [(22, ⟨60, 3⟩)], transactions := [] }

/-- Concrete consensus change reverting bC5. -/
def ccC5 : ConsensusChange :=
  { siacoinOutputDiffs := []
    siafundOutputDiffs := []
    siafundPoolDiffs := []
    revertedBlocks := [bC5]
    appliedBlocks := []
    synced := false }

/-- Concrete log entry bearing identifier 9, the miner entry of the block
the C5 witness reverts. -/
def eW5 : ProcessedTransaction :=
  { transaction := emptyGoTransaction, transactionID := 9,
    confirmationHeight := 1, confirmationTimestamp := 0,
    inputs := [], outputs := [] }

/-- Concrete wallet owning address 3, log consistent with its index. -/
def wW5 : Wallet :=
  { emptyWallet with
    keys := fun a => a == 3
    consensusSetHeight := 1
    processedTransactions := [eW5]
    processedTransactionMap := Function.update (fun _ => none) 9 (some eW5) }

/-- Concrete relevant transaction applied by the C5 witness. -/
def txnW5 : Transaction :=
  { id := 15, siacoinInputs := [], siacoinOutputs := [(41, ⟨70, 3⟩)],
    siafundInputs := [], siafundOutputs := [], minerFees := [] }

/-- Concrete applied block of the C5 witness, carrying txnW5. -/
def bW5A : Block :=
  { id := 14, timestamp := 8, minerPayouts := [], transactions := [txnW5] }

/-- Concrete reverted block of the C5 witness: its miner entry is the wW5
log tail. -/
def bW5R : Block :=
  { id := 9, timestamp := 0, minerPayouts := [(22, ⟨60, 3⟩)], transactions := [] }

/-- Concrete consensus change for the C5 witness: revert bW5R, then apply
bW5A. -/
def ccW5 : ConsensusChange :=
  { siacoinOutputDiffs := []
    siafundOutputDiffs := []
    siafundPoolDiffs := []
    revertedBlocks := [bW5R]
    appliedBlocks := [bW5A]
    synced := false }

/-- Concrete wallet for the C6 counterexample, owning address 1 and holding
a cached siafund output 60. -/
def wC6 : Wallet :=
  { emptyWallet with
    keys := fun a => a == 1
    siafundPool := 10
    historicOutputs := Function.update (fun _ => none) 60 (some 4)
    historicClaimStarts := Function.update (fun _ => none) 60 (some 2) }

/-- Concrete transaction with one siafund input, which the apply pass
records and the unconfirmed builder drops. -/
def txnC6 : Transaction :=
  { id := 34, siacoinInputs := [], siacoinOutputs := [],
    siafundInputs := [⟨60, 1, 2⟩], siafundOutputs := [], minerFees := [] }

/-- Concrete block carrying the C6 counterexample transaction. -/
def bC6 : Block :=
  { id := 33, timestamp := 7, minerPayouts := [], transactions := [txnC6] }

/-- Concrete wallet with pool level 3 for the C7 witness. -/
def wC7 : Wallet := { emptyWallet with siafundPool := 3 }

/-- Concrete consensus change carrying only pool diffs; the last one is a
revert with recorded Previous value 5. -/
def ccC7 : ConsensusChange :=
  { siacoinOutputDiffs := []
    siafundOutputDiffs := []
    siafundPoolDiffs := [⟨.apply, 3, 9⟩, ⟨.revert, 5, 11⟩]
    revertedBlocks := []
    appliedBlocks := []
    synced := false }

/-- The wallet updateConfirmedSet produces from wC7 and ccC7. -/
def wC7post : Wallet := updateConfirmedSetPure ccC7 wC7

/-- Concrete wallet with empty caches for the C10 witness. -/
def wW10 : Wallet := { emptyWallet with keys := fun a => a == 1, siafundPool := 9 }

/-- Concrete transaction whose siacoin input parent 50 and siafund input
parent 60 are absent from every cache. -/
def txnW10 : Transaction :=
  { id := 45, siacoinInputs := [⟨50, 2⟩], siacoinOutputs := [],
    siafundInputs := [⟨60, 1, 6⟩], siafundOutputs := [], minerFees := [] }

/-- Concrete block carrying the C10 witness transaction. -/
def bW10 : Block :=
  { id := 44, timestamp := 3, minerPayouts := [], transactions := [txnW10] }

/-- Concrete wallet for the C2 witness, owning address 1 at height 5 with
a spendable siacoin output 39. -/
def wW2 : Wallet :=
  { emptyWallet with
    keys := fun a => a == 1
    consensusSetHeight := 5
    siafundPool := 2
    siacoinOutputs := Function.update (fun _ => none) 39 (some ⟨25, 1⟩)
    historicOutputs := Function.update (fun _ => none) 39 (some 25) }

/-- Concrete transaction of the C2 witness block: spends output 39 into
output 40. -/
def txnW2 : Transaction :=
  { id := 31, siacoinInputs := [⟨39, 1⟩], siacoinOutputs := [(40, ⟨25, 1⟩)],
    siafundInputs := [], siafundOutputs := [], minerFees := [] }

/-- Concrete applied block for the C2 witness, carrying txnW2. -/
def bW2 : Block :=
  { id := 30, timestamp := 11, minerPayouts := [(46, ⟨90, 1⟩)],
    transactions := [txnW2] }

/-- Siacoin diffs of the C2 witness block: spend 39, create 40. -/
def dsW2 : List SiacoinOutputDiff :=
  [⟨.revert, 39, ⟨25, 1⟩⟩, ⟨.apply, 40, ⟨25, 1⟩⟩]

/-- Pool diffs of the C2 witness block. -/
def dspW2 : List SiafundPoolDiff := [⟨.apply, 2, 6⟩]

/-! Helper lemmas: closed forms of the build loops, Except folds, and pool
folds.  These are shared infrastructure for the claim theorems below. -/

theorem foldlM_except_ok {σ α : Type} (f : σ → α → Except String σ) (g : σ → α → σ)
    (hfg : ∀ s a, f s a = .ok (g s a)) :
    ∀ (l : List α) (s : σ), l.foldlM f s = .ok (l.foldl g s) := by
  intro l
  induction l with
  | nil => intro s; rfl
  | cons a l ih =>
      intro s
      rw [List.foldlM_cons, hfg, List.foldl_cons]
      exact ih (g s a)

theorem applyScoDiff_false (keys : UnlockHash → Bool)
    (m : OutputID → Option SiacoinOutput) (d : SiacoinOutputDiff) :
    applyScoDiff false keys m d = .ok (scoStepPure keys m d) := by
  unfold applyScoDiff scoStepPure
  cases d.direction <;> by_cases hk : keys d.siacoinOutput.unlockHash <;> simp [hk]

theorem applySfoDiff_false (keys : UnlockHash → Bool)
    (m : OutputID → Option SiafundOutput) (d : SiafundOutputDiff) :
    applySfoDiff false keys m d = .ok (sfoStepPure keys m d) := by
  unfold applySfoDiff sfoStepPure
  cases d.direction <;> by_cases hk : keys d.siafundOutput.unlockHash <;> simp [hk]

theorem updateConfirmedSet_false (cc : ConsensusChange) (w : Wallet) :
    updateConfirmedSet false cc w = .ok (updateConfirmedSetPure cc w) := by
  unfold updateConfirmedSet updateConfirmedSetPure
  rw [foldlM_except_ok _ _ (applyScoDiff_false w.keys),
      foldlM_except_ok _ _ (applySfoDiff_false w.keys)]
  rfl


theorem poolStep_eq_poolVal (p : Currency) (d : SiafundPoolDiff) :
    poolStep p d = poolVal d := by
  cases d; rfl

theorem foldl_poolStep_getLast :
    ∀ (ds : List SiafundPoolDiff) (p : Currency) (d : SiafundPoolDiff),
      ds.getLast? = some d → ds.foldl poolStep p = poolVal d := by
  intro ds
  induction ds with
  | nil => intro p d h; cases h
  | cons a l ih =>
      intro p d h
      cases l with
      | nil =>
          simp [List.getLast?] at h
          simp [h, poolStep_eq_poolVal]
      | cons b l2 =>
          rw [List.foldl_cons]
          exact ih (poolStep p a) d (by rw [← h, List.getLast?_cons_cons])


theorem foldl_sciStep (keys : UnlockHash → Bool) :
    ∀ (l : List SiacoinInput) (a : TxnAcc),
      l.foldl (sciStep keys) a =
        { a with
          relevant := a.relevant || l.any (fun sci => keys sci.unlockHash)
          inputs := a.inputs ++ l.map (fun sci =>
            { fundType := .siacoinInput, walletAddress := keys sci.unlockHash,
              relatedAddress := sci.unlockHash,
              value := (a.historicOutputs sci.parentID).getD 0 }) } := by
  intro l
  induction l with
  | nil => intro a; simp
  | cons sci l ih =>
      intro a
      obtain ⟨ins, outs, rel, ho, hc⟩ := a
      rw [List.foldl_cons, ih]
      simp [sciStep, Bool.or_assoc]

theorem foldl_scoStep (keys : UnlockHash → Bool) (mat : BlockHeight) :
    ∀ (l : List (OutputID × SiacoinOutput)) (a : TxnAcc),
      l.foldl (scoStep keys mat) a =
        { a with
          relevant := a.relevant || l.any (fun p => keys p.2.unlockHash)
          outputs := a.outputs ++ l.map (fun p =>
            { fundType := .siacoinOutput, maturityHeight := mat,
              walletAddress := keys p.2.unlockHash,
              relatedAddress := p.2.unlockHash, value := p.2.value })
          historicOutputs := scoWrites l a.historicOutputs } := by
  intro l
  induction l with
  | nil => intro a; simp [scoWrites]
  | cons p l ih =>
      intro a
      obtain ⟨ins, outs, rel, ho, hc⟩ := a
      rw [List.foldl_cons, ih]
      simp [scoStep, scoWrites, Bool.or_assoc]

theorem foldl_sfiStep (keys : UnlockHash → Bool) (pool : Currency) (height : BlockHeight) :
    ∀ (l : List SiafundInput) (a : TxnAcc),
      l.foldl (sfiStep keys pool height) a =
        { a with
          relevant := a.relevant || l.any (fun sfi => keys sfi.unlockHash)
          inputs := a.inputs ++ l.map (fun sfi =>
            { fundType := .siafundInput, walletAddress := keys sfi.unlockHash,
              relatedAddress := sfi.unlockHash,
              value := (a.historicOutputs sfi.parentID).getD 0 })
          outputs := a.outputs ++ l.map (fun sfi =>
            { fundType := .claimOutput, maturityHeight := u64 (height + MaturityDelay),
              walletAddress := keys sfi.unlockHash,
              relatedAddress := sfi.claimUnlockHash,
              value := (pool - (a.historicClaimStarts sfi.parentID).getD 0) *
                ((a.historicOutputs sfi.parentID).getD 0) }) } := by
  intro l
  induction l with
  | nil => intro a; simp
  | cons sfi l ih =>
      intro a
      obtain ⟨ins, outs, rel, ho, hc⟩ := a
      rw [List.foldl_cons, ih]
      simp [sfiStep, Bool.or_assoc]

theorem foldl_sfoStep (keys : UnlockHash → Bool) (mat : BlockHeight) :
    ∀ (l : List (OutputID × SiafundOutput)) (a : TxnAcc),
      l.foldl (sfoStep keys mat) a =
        { a with
          relevant := a.relevant || l.any (fun p => keys p.2.unlockHash)
          outputs := a.outputs ++ l.map (fun p =>
            { fundType := .siafundOutput, maturityHeight := mat,
              walletAddress := keys p.2.unlockHash,
              relatedAddress := p.2.unlockHash, value := p.2.value })
          historicOutputs := sfoWritesV l a.historicOutputs
          historicClaimStarts := sfoWritesC l a.historicClaimStarts } := by
  intro l
  induction l with
  | nil => intro a; simp [sfoWritesV, sfoWritesC]
  | cons p l ih =>
      intro a
      obtain ⟨ins, outs, rel, ho, hc⟩ := a
      rw [List.foldl_cons, ih]
      simp [sfoStep, sfoWritesV, sfoWritesC, Bool.or_assoc]

theorem foldl_feeStep :
    ∀ (l : List Currency) (a : TxnAcc),
      l.foldl feeStep a =
        { a with
          outputs := a.outputs ++ l.map (fun fee =>
            { fundType := .minerFee, maturityHeight := 0, walletAddress := false,
              relatedAddress := 0, value := fee }) } := by
  intro l
  induction l with
  | nil => intro a; simp
  | cons fee l ih =>
      intro a
      obtain ⟨ins, outs, rel, ho, hc⟩ := a
      rw [List.foldl_cons, ih]
      simp [feeStep]

theorem foldl_mpStep (keys : UnlockHash → Bool) (height : BlockHeight) :
    ∀ (l : List (OutputID × SiacoinOutput)) (a : MpAcc),
      l.foldl (mpStep keys height) a =
        { outputs := a.outputs ++ l.map (fun mp =>
            { fundType := .minerPayout, maturityHeight := u64 (height + MaturityDelay),
              walletAddress := keys mp.2.unlockHash,
              relatedAddress := mp.2.unlockHash, value := mp.2.value })
          relevant := a.relevant || l.any (fun mp => keys mp.2.unlockHash)
          historicOutputs := scoWrites l a.historicOutputs } := by
  intro l
  induction l with
  | nil => intro a; simp [scoWrites]
  | cons mp l ih =>
      intro a
      obtain ⟨outs, rel, ho⟩ := a
      rw [List.foldl_cons, ih]
      simp [mpStep, scoWrites, Bool.or_assoc]

/-- Closed form of the five confirmed build loops of one transaction. -/
theorem buildTxnAcc_eq (keys : UnlockHash → Bool) (pool : Currency)
    (height : BlockHeight) (houts hclaims : OutputID → Option Currency)
    (txn : Transaction) :
    buildTxnAcc keys pool height houts hclaims txn =
      { inputs :=
          txn.siacoinInputs.map (fun sci =>
            { fundType := .siacoinInput, walletAddress := keys sci.unlockHash,
              relatedAddress := sci.unlockHash,
              value := (houts sci.parentID).getD 0 }) ++
          txn.siafundInputs.map (fun sfi =>
            { fundType := .siafundInput, walletAddress := keys sfi.unlockHash,
              relatedAddress := sfi.unlockHash,
              value := ((scoWrites txn.siacoinOutputs houts) sfi.parentID).getD 0 })
        outputs :=
          txn.siacoinOutputs.map (fun p =>
            { fundType := .siacoinOutput, maturityHeight := height,
              walletAddress := keys p.2.unlockHash,
              relatedAddress := p.2.unlockHash, value := p.2.value }) ++
          txn.siafundInputs.map (fun sfi =>
            { fundType := .claimOutput, maturityHeight := u64 (height + MaturityDelay),
              walletAddress := keys sfi.unlockHash,
              relatedAddress := sfi.claimUnlockHash,
              value := (pool - (hclaims sfi.parentID).getD 0) *
                (((scoWrites txn.siacoinOutputs houts) sfi.parentID).getD 0) }) ++
          txn.siafundOutputs.map (fun p =>
            { fundType := .siafundOutput, maturityHeight := height,
              walletAddress := keys p.2.unlockHash,
              relatedAddress := p.2.unlockHash, value := p.2.value }) ++
          txn.minerFees.map (fun fee =>
            { fundType := .minerFee, maturityHeight := 0, walletAddress := false,
              relatedAddress := 0, value := fee })
        relevant :=
          (txn.siacoinInputs.any (fun sci => keys sci.unlockHash) ||
           txn.siacoinOutputs.any (fun p => keys p.2.unlockHash) ||
           txn.siafundInputs.any (fun sfi => keys sfi.unlockHash) ||
           txn.siafundOutputs.any (fun p => keys p.2.unlockHash))
        historicOutputs := sfoWritesV txn.siafundOutputs (scoWrites txn.siacoinOutputs houts)
        historicClaimStarts := sfoWritesC txn.siafundOutputs hclaims } := by
  unfold buildTxnAcc
  simp only [foldl_sciStep, foldl_scoStep, foldl_sfiStep, foldl_sfoStep, foldl_feeStep]
  simp [Bool.or_assoc, List.append_assoc]

/-- Closed form of the three unconfirmed build loops of one candidate. -/
theorem buildUnconfirmedAcc_eq (keys : UnlockHash → Bool)
    (houts hclaims : OutputID → Option Currency) (txn : Transaction) :
    buildUnconfirmedAcc keys houts hclaims txn =
      { inputs :=
          txn.siacoinInputs.map (fun sci =>
            { fundType := .siacoinInput, walletAddress := keys sci.unlockHash,
              relatedAddress := sci.unlockHash,
              value := (houts sci.parentID).getD 0 })
        outputs :=
          txn.siacoinOutputs.map (fun p =>
            { fundType := .siacoinOutput, maturityHeight := maxU64,
              walletAddress := keys p.2.unlockHash,
              relatedAddress := p.2.unlockHash, value := p.2.value }) ++
          txn.minerFees.map (fun fee =>
            { fundType := .minerFee, maturityHeight := 0, walletAddress := false,
              relatedAddress := 0, value := fee })
        relevant :=
          (txn.siacoinInputs.any (fun sci => keys sci.unlockHash) ||
           txn.siacoinOutputs.any (fun p => keys p.2.unlockHash))
        historicOutputs := scoWrites txn.siacoinOutputs houts
        historicClaimStarts := hclaims } := by
  unfold buildUnconfirmedAcc
  simp only [foldl_sciStep, foldl_scoStep, foldl_feeStep]
  simp [Bool.or_assoc]

theorem receiveTxn_historicOutputs (w : Wallet) (txn : Transaction) :
    (receiveTxn w txn).historicOutputs = scoWrites txn.siacoinOutputs w.historicOutputs := by
  unfold receiveTxn
  simp only [buildUnconfirmedAcc_eq]
  split <;> rfl

theorem receiveTxn_keys (w : Wallet) (txn : Transaction) :
    (receiveTxn w txn).keys = w.keys := by
  unfold receiveTxn
  simp only []
  split <;> rfl

theorem scoWrites_append (l1 l2 : List (OutputID × SiacoinOutput))
    (h : OutputID → Option Currency) :
    scoWrites (l1 ++ l2) h = scoWrites l2 (scoWrites l1 h) := by
  unfold scoWrites
  rw [List.foldl_append]

theorem foldl_receiveTxn_historicOutputs :
    ∀ (txns : List Transaction) (v : Wallet),
      (txns.foldl receiveTxn v).historicOutputs =
        scoWrites (List.flatten (txns.map Transaction.siacoinOutputs)) v.historicOutputs := by
  intro txns
  induction txns with
  | nil => intro v; rfl
  | cons t ts ih =>
      intro v
      rw [List.foldl_cons, ih, List.map_cons, List.flatten_cons, scoWrites_append,
        receiveTxn_historicOutputs]

/-- C8: when registration with the shutdown gate fails, both entry points
return immediately without error and without touching any wallet state. -/
theorem c8_shutdown_noop (debug : Bool) (cc : ConsensusChange)
    (txns : List Transaction) (w : Wallet) :
    ProcessConsensusChange debug false cc w = .ok w ∧
    ReceiveUpdatedUnconfirmedTransactions false txns w = w :=
  ⟨rfl, rfl⟩

/-- C9: the unconfirmed rebuild writes every candidate siacoin output's
value into the Historical Value Cache, relevant or not: the resulting cache
is exactly the old cache overlaid with all those writes in order. -/
theorem c9_unconfirmed_writes_cache (w : Wallet) (txns : List Transaction) :
    (ReceiveUpdatedUnconfirmedTransactions true txns w).historicOutputs =
      scoWrites (List.flatten (txns.map Transaction.siacoinOutputs)) w.historicOutputs := by
  unfold ReceiveUpdatedUnconfirmedTransactions
  rw [if_pos rfl, foldl_receiveTxn_historicOutputs]

/-- C7: in updateConfirmedSet the pool level ends at the recorded value of
the last pool diff (Adjusted for apply, Previous for revert), and is left
unchanged when no pool diff is supplied. -/
theorem c7_pool_diff_recorded_value (debug : Bool) (cc : ConsensusChange)
    (w w' : Wallet) (h : updateConfirmedSet debug cc w = .ok w') :
    (∀ d, cc.siafundPoolDiffs.getLast? = some d → w'.siafundPool = poolVal d) ∧
    (cc.siafundPoolDiffs = [] → w'.siafundPool = w.siafundPool) := by
  unfold updateConfirmedSet at h
  cases hsc : cc.siacoinOutputDiffs.foldlM (applyScoDiff debug w.keys) w.siacoinOutputs with
  | error e => rw [hsc] at h; simp [Bind.bind, Except.bind] at h
  | ok sc =>
      rw [hsc] at h
      cases hsf : cc.siafundOutputDiffs.foldlM (applySfoDiff debug w.keys) w.siafundOutputs with
      | error e => rw [hsf] at h; simp [Bind.bind, Except.bind] at h
      | ok sf =>
          rw [hsf] at h
          simp only [Bind.bind, Except.bind, pure, Except.pure, Except.ok.injEq] at h
          subst h
          constructor
          · intro d hd
            exact foldl_poolStep_getLast cc.siafundPoolDiffs w.siafundPool d hd
          · intro hnil
            simp [hnil]

/-- C7 witness: a concrete pool-diff list whose last diff is a revert with
recorded Previous value 5 leaves the pool at exactly 5. -/
theorem c7_witness :
    updateConfirmedSet false ccC7 wC7 = .ok wC7post ∧ wC7post.siafundPool = 5 := by
  have h : updateConfirmedSet false ccC7 wC7 = .ok wC7post := updateConfirmedSet_false ccC7 wC7
  exact ⟨h, (c7_pool_diff_recorded_value false ccC7 wC7 wC7post h).1 ⟨.revert, 5, 11⟩ rfl⟩

theorem filter_map_const_false {α β : Type} (p : β → Bool) (f : α → β)
    (h : ∀ a, p (f a) = false) :
    ∀ l : List α, (l.map f).filter p = [] := by
  intro l
  induction l with
  | nil => rfl
  | cons a l ih => simp [List.filter_cons, h, ih]

theorem filter_map_const_true {α β : Type} (p : β → Bool) (f : α → β)
    (h : ∀ a, p (f a) = true) :
    ∀ l : List α, (l.map f).filter p = l.map f := by
  intro l
  induction l with
  | nil => rfl
  | cons a l ih => simp [List.filter_cons, h, ih]

/-- C3: the apply pass synthesizes exactly one claim output per siafund
input, whose value is the pool level minus the cached claim start of the
input's parent, times the input's cached quantity (the cache as of that
point, after this transaction's siacoin output writes), whose maturity
height is the tracked height plus the maturity delay, and whose ownership
flag equals the input's. -/
theorem c3_claim_output_arithmetic (w : Wallet) (block : Block) (txn : Transaction) :
    (applyTxnPT w block txn).outputs.filter
        (fun o => o.fundType == FundType.claimOutput) =
      txn.siafundInputs.map (fun sfi =>
        { fundType := .claimOutput,
          maturityHeight := u64 (w.consensusSetHeight + MaturityDelay),
          walletAddress := w.keys sfi.unlockHash,
          relatedAddress := sfi.claimUnlockHash,
          value := (w.siafundPool - (w.historicClaimStarts sfi.parentID).getD 0) *
            ((scoWrites txn.siacoinOutputs w.historicOutputs sfi.parentID).getD 0) }) := by
  unfold applyTxnPT
  simp only [buildTxnAcc_eq]
  simp only [List.filter_append]
  rw [filter_map_const_false _ _ (fun a => rfl), filter_map_const_true _ _ (fun a => rfl),
    filter_map_const_false _ _ (fun a => rfl), filter_map_const_false _ _ (fun a => rfl)]
  simp

/-- C10: an input whose parent identifier is absent from the Historical
Value Cache is recorded with value zero, a siafund input additionally gets
a claim output of value zero from the zero quantity and zero claim start,
and the build continues through every input. -/
theorem c10_missing_cache_entry_zero (w : Wallet) (block : Block) (txn : Transaction)
    (sci : SiacoinInput) (sfi : SiafundInput)
    (hsci : sci ∈ txn.siacoinInputs)
    (hsfi : sfi ∈ txn.siafundInputs)
    (h1 : w.historicOutputs sci.parentID = none)
    (h2 : scoWrites txn.siacoinOutputs w.historicOutputs sfi.parentID = none)
    (h3 : w.historicClaimStarts sfi.parentID = none) :
    ({ fundType := .siacoinInput, walletAddress := w.keys sci.unlockHash,
       relatedAddress := sci.unlockHash, value := 0 } : ProcessedInput) ∈
        (applyTxnPT w block txn).inputs ∧
    ({ fundType := .siafundInput, walletAddress := w.keys sfi.unlockHash,
       relatedAddress := sfi.unlockHash, value := 0 } : ProcessedInput) ∈
        (applyTxnPT w block txn).inputs ∧
    ({ fundType := .claimOutput, maturityHeight := u64 (w.consensusSetHeight + MaturityDelay),
       walletAddress := w.keys sfi.unlockHash, relatedAddress := sfi.claimUnlockHash,
       value := (w.siafundPool - 0) * 0 } : ProcessedOutput) ∈
        (applyTxnPT w block txn).outputs ∧
    (applyTxnPT w block txn).inputs.length =
      txn.siacoinInputs.length + txn.siafundInputs.length := by
  unfold applyTxnPT
  simp only [buildTxnAcc_eq]
  refine ⟨?_, ?_, ?_, ?_⟩
  · exact List.mem_append_left _ (List.mem_map.mpr ⟨sci, hsci, by simp [h1]⟩)
  · exact List.mem_append_right _ (List.mem_map.mpr ⟨sfi, hsfi, by simp [h2]⟩)
  · refine List.mem_append_left _ (List.mem_append_left _ (List.mem_append_right _
      (List.mem_map.mpr ⟨sfi, hsfi, by simp [h2, h3]⟩)))
  · simp

/-- C10 witness: with both caches empty, the siafund input with parent 60
is recorded with value zero at a concrete wallet. -/
theorem c10_witness :
    wW10.historicOutputs 50 = none ∧
    scoWrites txnW10.siacoinOutputs wW10.historicOutputs 60 = none ∧
    wW10.historicClaimStarts 60 = none ∧
    ({ fundType := .siafundInput, walletAddress := wW10.keys 1,
       relatedAddress := 1, value := 0 } : ProcessedInput) ∈
      (applyTxnPT wW10 bW10 txnW10).inputs :=
  ⟨rfl, rfl, rfl,
    (c10_missing_cache_entry_zero wW10 bW10 txnW10 ⟨50, 2⟩ ⟨60, 1, 6⟩
      (by decide) (by decide) rfl rfl rfl).2.1⟩

/-- C6 counterexample: for a transaction with one siafund input, the apply
pass entry records the input but the unconfirmed entry omits it entirely,
so the two entries differ beyond the confirmation height and timestamp. -/
theorem c6_counterexample :
    (receiveTxnPT wC6 txnC6).inputs.length = 0 ∧
    (applyTxnPT wC6 bC6 txnC6).inputs.length = 1 := by
  decide

/-- C6 (amended): the unconfirmed entry equals the apply-pass entry with
the siafund inputs, siafund outputs and claim outputs removed, with the
confirmation height and timestamp set to the MaxUint64 sentinel, and with
every siacoin output's maturity height also set to that sentinel; the
entry is appended exactly when the siacoin-only relevance flag holds. -/
theorem c6_unconfirmed_vs_apply_pass (w : Wallet) (block : Block) (txn : Transaction) :
    receiveTxnPT w txn =
      { transaction := (applyTxnPT w block txn).transaction
        transactionID := (applyTxnPT w block txn).transactionID
        confirmationHeight := maxU64
        confirmationTimestamp := maxU64
        inputs := (applyTxnPT w block txn).inputs.filter
          (fun i => i.fundType == FundType.siacoinInput)
        outputs := ((applyTxnPT w block txn).outputs.filter
            (fun o => o.fundType == FundType.siacoinOutput ||
              o.fundType == FundType.minerFee)).map
          (fun o => if o.fundType == FundType.siacoinOutput then
            { o with maturityHeight := maxU64 } else o) } ∧
    (receiveTxn w txn).unconfirmedProcessedTransactions =
      w.unconfirmedProcessedTransactions ++
        (if (buildUnconfirmedAcc w.keys w.historicOutputs w.historicClaimStarts txn).relevant
         then [receiveTxnPT w txn] else []) := by
  constructor
  · unfold receiveTxnPT applyTxnPT
    simp only [buildUnconfirmedAcc_eq, buildTxnAcc_eq]
    simp only [List.filter_append]
    rw [filter_map_const_true _ _ (fun a => rfl), filter_map_const_false _ _ (fun a => rfl),
      filter_map_const_true _ _ (fun a => rfl), filter_map_const_false _ _ (fun a => rfl),
      filter_map_const_false _ _ (fun a => rfl), filter_map_const_true _ _ (fun a => rfl)]
    simp [List.map_map, Function.comp_def]
  · unfold receiveTxn
    simp only []
    split <;> simp

theorem applyScoDiff_true_of_ok (keys : UnlockHash → Bool)
    (m : OutputID → Option SiacoinOutput) (d : SiacoinOutputDiff)
    (h : scoViolHead keys m d = false) :
    applyScoDiff true keys m d = .ok (scoStepPure keys m d) := by
  unfold scoViolHead at h
  unfold applyScoDiff scoStepPure
  cases hd : d.direction <;> rw [hd] at h <;>
    by_cases hk : keys d.siacoinOutput.unlockHash <;>
    simp_all [Option.isSome_iff_ne_none]

theorem applyScoDiff_true_of_viol (keys : UnlockHash → Bool)
    (m : OutputID → Option SiacoinOutput) (d : SiacoinOutputDiff)
    (h : scoViolHead keys m d = true) :
    ∃ msg, applyScoDiff true keys m d = .error msg := by
  unfold scoViolHead at h
  unfold applyScoDiff
  cases hd : d.direction <;> rw [hd] at h <;>
    by_cases hk : keys d.siacoinOutput.unlockHash <;>
    simp_all [Option.isSome_iff_ne_none]

theorem applySfoDiff_true_of_ok (keys : UnlockHash → Bool)
    (m : OutputID → Option SiafundOutput) (d : SiafundOutputDiff)
    (h : sfoViolHead keys m d = false) :
    applySfoDiff true keys m d = .ok (sfoStepPure keys m d) := by
  unfold sfoViolHead at h
  unfold applySfoDiff sfoStepPure
  cases hd : d.direction <;> rw [hd] at h <;>
    by_cases hk : keys d.siafundOutput.unlockHash <;>
    simp_all [Option.isSome_iff_ne_none]

theorem applySfoDiff_true_of_viol (keys : UnlockHash → Bool)
    (m : OutputID → Option SiafundOutput) (d : SiafundOutputDiff)
    (h : sfoViolHead keys m d = true) :
    ∃ msg, applySfoDiff true keys m d = .error msg := by
  unfold sfoViolHead at h
  unfold applySfoDiff
  cases hd : d.direction <;> rw [hd] at h <;>
    by_cases hk : keys d.siafundOutput.unlockHash <;>
    simp_all [Option.isSome_iff_ne_none]

theorem scoFold_error (keys : UnlockHash → Bool) :
    ∀ (ds : List SiacoinOutputDiff) (m : OutputID → Option SiacoinOutput),
      scoViol keys m ds = true →
      ∃ msg, ds.foldlM (applyScoDiff true keys) m = .error msg := by
  intro ds
  induction ds with
  | nil => intro m h; simp [scoViol] at h
  | cons d ds ih =>
      intro m h
      by_cases hv : scoViolHead keys m d = true
      · obtain ⟨msg, hmsg⟩ := applyScoDiff_true_of_viol keys m d hv
        exact ⟨msg, by rw [List.foldlM_cons, hmsg]; rfl⟩
      · have hv' : scoViolHead keys m d = false := Bool.eq_false_iff.mpr hv
        have hrest : scoViol keys (scoStepPure keys m d) ds = true := by
          rw [scoViol, hv'] at h
          simpa using h
        obtain ⟨msg, hmsg⟩ := ih (scoStepPure keys m d) hrest
        refine ⟨msg, ?_⟩
        rw [List.foldlM_cons, applyScoDiff_true_of_ok keys m d hv']
        exact hmsg

theorem scoFold_ok (keys : UnlockHash → Bool) :
    ∀ (ds : List SiacoinOutputDiff) (m : OutputID → Option SiacoinOutput),
      scoViol keys m ds = false →
      ds.foldlM (applyScoDiff true keys) m = .ok (ds.foldl (scoStepPure keys) m) := by
  intro ds
  induction ds with
  | nil => intro m _; rfl
  | cons d ds ih =>
      intro m h
      rw [scoViol, Bool.or_eq_false_iff] at h
      rw [List.foldlM_cons, applyScoDiff_true_of_ok keys m d h.1, List.foldl_cons]
      exact ih (scoStepPure keys m d) h.2

theorem sfoFold_error (keys : UnlockHash → Bool) :
    ∀ (ds : List SiafundOutputDiff) (m : OutputID → Option SiafundOutput),
      sfoViol keys m ds = true →
      ∃ msg, ds.foldlM (applySfoDiff true keys) m = .error msg := by
  intro ds
  induction ds with
  | nil => intro m h; simp [sfoViol] at h
  | cons d ds ih =>
      intro m h
      by_cases hv : sfoViolHead keys m d = true
      · obtain ⟨msg, hmsg⟩ := applySfoDiff_true_of_viol keys m d hv
        exact ⟨msg, by rw [List.foldlM_cons, hmsg]; rfl⟩
      · have hv' : sfoViolHead keys m d = false := Bool.eq_false_iff.mpr hv
        have hrest : sfoViol keys (sfoStepPure keys m d) ds = true := by
          rw [sfoViol, hv'] at h
          simpa using h
        obtain ⟨msg, hmsg⟩ := ih (sfoStepPure keys m d) hrest
        refine ⟨msg, ?_⟩
        rw [List.foldlM_cons, applySfoDiff_true_of_ok keys m d hv']
        exact hmsg

/-- C1 (amended): with the build DEBUG flag set, a consensus change whose
siacoin or siafund diff stream contains a violation (an owned apply over a
present identifier, or an owned revert of an absent one, at its processing
point) makes updateConfirmedSet fail loudly with a panic. -/
theorem c1_debug_gated_fatal (cc : ConsensusChange) (w : Wallet)
    (h : (scoViol w.keys w.siacoinOutputs cc.siacoinOutputDiffs ||
          sfoViol w.keys w.siafundOutputs cc.siafundOutputDiffs) = true) :
    ∃ msg, updateConfirmedSet true cc w = .error msg := by
  by_cases hsco : scoViol w.keys w.siacoinOutputs cc.siacoinOutputDiffs = true
  · obtain ⟨msg, hmsg⟩ := scoFold_error w.keys cc.siacoinOutputDiffs w.siacoinOutputs hsco
    exact ⟨msg, by unfold updateConfirmedSet; rw [hmsg]; rfl⟩
  · have hsco' : scoViol w.keys w.siacoinOutputs cc.siacoinOutputDiffs = false :=
      Bool.eq_false_iff.mpr hsco
    have hsfo : sfoViol w.keys w.siafundOutputs cc.siafundOutputDiffs = true := by
      rw [hsco'] at h
      simpa using h
    obtain ⟨msg, hmsg⟩ := sfoFold_error w.keys cc.siafundOutputDiffs w.siafundOutputs hsfo
    refine ⟨msg, ?_⟩
    unfold updateConfirmedSet
    rw [scoFold_ok w.keys cc.siacoinOutputDiffs w.siacoinOutputs hsco']
    show (cc.siafundOutputDiffs.foldlM (applySfoDiff true w.keys) w.siafundOutputs).bind _ = _
    rw [hmsg]
    rfl

/-- C1 counterexample: in a standard release build (DEBUG unset), applying
a diff for identifier 7, which the wallet already holds, is not fatal: the
call succeeds and silently overwrites the existing ledger entry. -/
theorem c1_counterexample :
    (wC1.siacoinOutputs 7).isSome = true ∧
    (updateConfirmedSet false ccC1 wC1).toOption.map (fun v => v.siacoinOutputs 7) =
      some (some ⟨50, 1⟩) := by
  decide

/-- C1 witness: the same duplicate-apply stream is rejected when DEBUG is
set. -/
theorem c1_witness :
    (scoViol wC1.keys wC1.siacoinOutputs ccC1.siacoinOutputDiffs ||
     sfoViol wC1.keys wC1.siafundOutputs ccC1.siafundOutputDiffs) = true ∧
    (updateConfirmedSet true ccC1 wC1).toOption = none := by
  refine ⟨by decide, ?_⟩
  obtain ⟨msg, hm⟩ := c1_debug_gated_fatal ccC1 wC1 (by decide)
  rw [hm]
  rfl

theorem revertTxn_shape (w : Wallet) (t : Transaction) :
    ∃ l m, revertTxn w t =
      { w with processedTransactions := l, processedTransactionMap := m } := by
  unfold revertTxn
  split
  · split
    · exact ⟨_, _, rfl⟩
    · exact ⟨w.processedTransactions, w.processedTransactionMap, rfl⟩
  · exact ⟨w.processedTransactions, w.processedTransactionMap, rfl⟩

theorem foldl_revertTxn_shape :
    ∀ (ts : List Transaction) (w : Wallet), ∃ l m,
      ts.foldl revertTxn w =
        { w with processedTransactions := l, processedTransactionMap := m } := by
  intro ts
  induction ts with
  | nil =>
      intro w
      exact ⟨w.processedTransactions, w.processedTransactionMap, rfl⟩
  | cons t ts ih =>
      intro w
      obtain ⟨l1, m1, h1⟩ := revertTxn_shape w t
      obtain ⟨l2, m2, h2⟩ := ih (revertTxn w t)
      rw [List.foldl_cons, h2, h1]
      exact ⟨l2, m2, rfl⟩

theorem u64_dec_of_lt (h : Nat) (h0 : 0 < h) (h1 : h < U64MOD) :
    u64 (h + (U64MOD - 1)) = h - 1 := by
  unfold U64MOD at h1
  unfold u64 U64MOD
  norm_num at h1 ⊢
  omega

theorem u64_dec_inc (h : Nat) (h1 : h < U64MOD) :
    u64 (u64 (h + 1) + (U64MOD - 1)) = h := by
  unfold U64MOD at h1
  unfold u64 U64MOD
  norm_num at h1 ⊢
  omega

/-- C4 (amended): for every reverted block, after unwinding the block's
transactions the miner-payout pop happens exactly when some miner-payout
address is owned, with no identifier comparison against the log tail (and
it faults on an empty log); the tracked height is decremented exactly once
either way. -/
theorem c4_miner_pop_semantics (w : Wallet) (b : Block)
    (hne : b.minerPayouts.any (fun mp => w.keys mp.2.unlockHash) = true →
      (b.transactions.reverse.foldl revertTxn w).processedTransactions ≠ [])
    (h0 : 0 < w.consensusSetHeight) (h1 : w.consensusSetHeight < U64MOD) :
    ∃ w', revertBlock w b = .ok w' ∧
      w'.processedTransactions =
        (if b.minerPayouts.any (fun mp => w.keys mp.2.unlockHash) then
          (b.transactions.reverse.foldl revertTxn w).processedTransactions.dropLast
         else (b.transactions.reverse.foldl revertTxn w).processedTransactions) ∧
      w'.processedTransactionMap =
        (if b.minerPayouts.any (fun mp => w.keys mp.2.unlockHash) then
          Function.update
            (b.transactions.reverse.foldl revertTxn w).processedTransactionMap b.id none
         else (b.transactions.reverse.foldl revertTxn w).processedTransactionMap) ∧
      w'.consensusSetHeight = w.consensusSetHeight - 1 := by
  obtain ⟨l, m, hw1⟩ := foldl_revertTxn_shape b.transactions.reverse w
  unfold revertBlock
  rw [hw1]
  dsimp only
  by_cases hany : b.minerPayouts.any (fun mp => w.keys mp.2.unlockHash) = true
  · have hl : l ≠ [] := by
      have hx := hne hany
      rw [hw1] at hx
      exact hx
    obtain ⟨e, hll⟩ : ∃ e, l.getLast? = some e := by
      cases hgl : l.getLast? with
      | none => exact absurd (List.getLast?_eq_none_iff.mp hgl) hl
      | some e => exact ⟨e, rfl⟩
    rw [if_pos hany, hll]
    exact ⟨_, rfl, by rw [if_pos hany], by rw [if_pos hany],
      u64_dec_of_lt w.consensusSetHeight h0 h1⟩
  · rw [if_neg hany]
    exact ⟨_, rfl, by rw [if_neg hany], by rw [if_neg hany],
      u64_dec_of_lt w.consensusSetHeight h0 h1⟩

/-- C4 counterexample: reverting a block with identifier 9 and an owned
miner payout pops the log tail even though the tail bears identifier 5:
the pop is not guarded by any identifier comparison. -/
theorem c4_counterexample :
    wC4.processedTransactions.map ProcessedTransaction.transactionID = [5] ∧
    bC4.id = 9 ∧
    (revertBlock wC4 bC4).toOption.map Wallet.processedTransactions = some [] := by
  decide

/-- C4 witness: reverting a block whose miner entry is the log tail pops
exactly that entry and decrements the height from 1 to 0. -/
theorem c4_witness :
    0 < wW4.consensusSetHeight ∧
    (revertBlock wW4 bW4).toOption.map
      (fun v => (v.processedTransactions, v.consensusSetHeight)) = some ([], 0) := by
  refine ⟨by decide, ?_⟩
  obtain ⟨w', h1, h2, h2m, h3⟩ :=
    c4_miner_pop_semantics wW4 bW4 (fun _ => by decide) (by decide) (by decide)
  rw [h1]
  show some (w'.processedTransactions, w'.consensusSetHeight) = some ([], 0)
  rw [h2, h3]
  decide

theorem mem_dropLast_of_ne {α : Type} :
    ∀ (l : List α) (x e : α), x ∈ l → l.getLast? = some e → x ≠ e → x ∈ l.dropLast := by
  intro l
  induction l with
  | nil => intro x e hx _ _; cases hx
  | cons a l ih =>
      intro x e hx hl hne
      cases l with
      | nil =>
          simp [List.getLast?] at hl
          simp at hx
          exact absurd (hl ▸ hx) hne
      | cons b l2 =>
          rw [List.getLast?_cons_cons] at hl
          rw [List.dropLast_cons₂]
          rcases List.mem_cons.mp hx with hxa | hxl
          · exact List.mem_cons.mpr (Or.inl hxa)
          · exact List.mem_cons.mpr (Or.inr (ih x e hxl hl hne))

theorem revertTxn_indexOK (w : Wallet) (t : Transaction) (h : IndexOK w) :
    IndexOK (revertTxn w t) := by
  unfold revertTxn
  cases hgl : w.processedTransactions.getLast? with
  | none => exact h
  | some lastPT =>
      simp only []
      by_cases heq : t.id = lastPT.transactionID
      · rw [if_pos heq]
        intro id q hq
        dsimp only at hq
        by_cases hid : id = t.id
        · rw [hid, Function.update_same] at hq
          cases hq
        · rw [Function.update_noteq hid] at hq
          obtain ⟨hq1, hq2⟩ := h id q hq
          refine ⟨hq1, mem_dropLast_of_ne _ _ _ hq2 hgl ?_⟩
          intro hqe
          exact hid (by rw [← hq1, hqe, ← heq])
      · rw [if_neg heq]
        exact h

theorem foldl_revertTxn_indexOK :
    ∀ (ts : List Transaction) (w : Wallet), IndexOK w →
      IndexOK (ts.foldl revertTxn w) := by
  intro ts
  induction ts with
  | nil => intro w h; exact h
  | cons t ts ih =>
      intro w h
      rw [List.foldl_cons]
      exact ih (revertTxn w t) (revertTxn_indexOK w t h)

theorem revertBlock_indexOK (w : Wallet) (b : Block) (hI : IndexOK w)
    (hS : minerPopSafe w b = true) :
    ∃ v, revertBlock w b = .ok v ∧ IndexOK v := by
  have hI1 : IndexOK (b.transactions.reverse.foldl revertTxn w) :=
    foldl_revertTxn_indexOK b.transactions.reverse w hI
  unfold minerPopSafe at hS
  simp only [] at hS
  unfold revertBlock
  by_cases hc : b.minerPayouts.any
      (fun mp => (b.transactions.reverse.foldl revertTxn w).keys mp.2.unlockHash) = true
  · rw [hc] at hS
    simp only [Bool.not_true, Bool.false_or] at hS
    cases hgl : (b.transactions.reverse.foldl revertTxn w).processedTransactions.getLast? with
    | none => rw [hgl] at hS; cases hS
    | some e =>
        rw [hgl] at hS
        have he : e.transactionID = b.id := of_decide_eq_true hS
        rw [if_pos hc, hgl]
        refine ⟨_, rfl, ?_⟩
        intro id q hq
        dsimp only at hq
        by_cases hid : id = b.id
        · rw [hid, Function.update_same] at hq
          cases hq
        · rw [Function.update_noteq hid] at hq
          obtain ⟨hq1, hq2⟩ := hI1 id q hq
          refine ⟨hq1, mem_dropLast_of_ne _ _ _ hq2 hgl ?_⟩
          intro hqe
          exact hid (by rw [← hq1, hqe, he])
  · rw [if_neg hc]
    refine ⟨_, rfl, ?_⟩
    intro id q hq
    dsimp only at hq
    exact hI1 id q hq

theorem revertHistory_indexOK :
    ∀ (bs : List Block) (w : Wallet), IndexOK w → RevertSafe w bs = true →
      ∃ v, bs.foldlM revertBlock w = .ok v ∧ IndexOK v := by
  intro bs
  induction bs with
  | nil => intro w hI _; exact ⟨w, rfl, hI⟩
  | cons b bs ih =>
      intro w hI hS
      rw [RevertSafe, Bool.and_eq_true] at hS
      obtain ⟨v, hv, hIv⟩ := revertBlock_indexOK w b hI hS.1
      have hS2 : RevertSafe v bs = true := by
        have := hS.2
        rw [hv] at this
        exact this
      obtain ⟨u, hu, hIu⟩ := ih v hIv hS2
      refine ⟨u, ?_, hIu⟩
      rw [List.foldlM_cons, hv]
      exact hu

theorem indexOKL_append (l : List ProcessedTransaction)
    (m : TxId → Option ProcessedTransaction) (e : ProcessedTransaction)
    (h : ∀ id q, m id = some q → q.transactionID = id ∧ q ∈ l) :
    ∀ id q, Function.update m e.transactionID (some e) id = some q →
      q.transactionID = id ∧ q ∈ l ++ [e] := by
  intro id q hq
  by_cases hid : id = e.transactionID
  · rw [hid, Function.update_same] at hq
    obtain rfl : e = q := by injection hq
    exact ⟨hid.symm, List.mem_append_right _ (List.mem_singleton.mpr rfl)⟩
  · rw [Function.update_noteq hid] at hq
    obtain ⟨hq1, hq2⟩ := h id q hq
    exact ⟨hq1, List.mem_append_left _ hq2⟩

theorem applyTxn_indexOK (b : Block) (w : Wallet) (t : Transaction) (hI : IndexOK w) :
    IndexOK (applyTxn b w t) := by
  unfold applyTxn
  simp only []
  split
  · intro id q hq
    dsimp only at hq ⊢
    exact indexOKL_append w.processedTransactions w.processedTransactionMap _ hI id q hq
  · intro id q hq
    dsimp only at hq ⊢
    exact hI id q hq

theorem foldl_applyTxn_indexOK (b : Block) :
    ∀ (ts : List Transaction) (w : Wallet), IndexOK w →
      IndexOK (ts.foldl (applyTxn b) w) := by
  intro ts
  induction ts with
  | nil => intro w h; exact h
  | cons t ts ih =>
      intro w h
      rw [List.foldl_cons]
      exact ih (applyTxn b w t) (applyTxn_indexOK b w t h)

theorem applyBlock_indexOK (w : Wallet) (b : Block) (hI : IndexOK w) :
    IndexOK (applyBlock w b) := by
  unfold applyBlock
  simp only []
  apply foldl_applyTxn_indexOK
  split
  · intro id q hq
    dsimp only at hq ⊢
    exact indexOKL_append w.processedTransactions w.processedTransactionMap _ hI id q hq
  · intro id q hq
    dsimp only at hq ⊢
    exact hI id q hq

theorem applyHistory_indexOK (cc : ConsensusChange) :
    ∀ (bs : List Block) (w : Wallet), IndexOK w →
      IndexOK (bs.foldl applyBlock w) := by
  intro bs
  induction bs with
  | nil => intro w h; exact h
  | cons b bs ih =>
      intro w h
      rw [List.foldl_cons]
      exact ih (applyBlock w b) (applyBlock_indexOK w b h)

/-- C5 (amended): consensus-change processing preserves index consistency
(every indexed identifier refers to a live log entry bearing it, and
entries leave the log and the index together) provided each reverted
block's miner-payout pop hits the log tail bearing that block's identifier,
which is the reorg-consistent delivery the engine assumes; the
counterexample shows an arbitrary revert can break the invariant. -/
theorem c5_index_consistency (cc : ConsensusChange) (w : Wallet)
    (hI : IndexOK w)
    (hS : RevertSafe (updateConfirmedSetPure cc w) cc.revertedBlocks = true) :
    ∃ w', ProcessConsensusChange false true cc w = .ok w' ∧ IndexOK w' := by
  have hIu : IndexOK (updateConfirmedSetPure cc w) := fun id q hq => hI id q hq
  obtain ⟨v, hv, hIv⟩ :=
    revertHistory_indexOK cc.revertedBlocks (updateConfirmedSetPure cc w) hIu hS
  have hrv : revertHistory cc (updateConfirmedSetPure cc w) = .ok v := by
    unfold revertHistory
    exact hv
  refine ⟨applyHistory cc v, ?_, applyHistory_indexOK cc cc.appliedBlocks v hIv⟩
  unfold ProcessConsensusChange
  rw [if_pos rfl, updateConfirmedSet_false]
  show (revertHistory cc (updateConfirmedSetPure cc w)).bind _ = _
  rw [hrv]
  rfl

/-- C5 counterexample: reverting a never-applied block with an owned miner
payout pops the tail entry of identifier 5 while deleting index key 9, so
after the change the index still holds identifier 5 although the log is
empty: the index refers to a removed entry. -/
theorem c5_counterexample :
    (ProcessConsensusChange false true ccC5 wC5).toOption.map
      (fun v => (v.processedTransactions, (v.processedTransactionMap 5).isSome)) =
      some ([], true) := by
  decide

/-- C5 witness: a change that reverts the block matching the log tail and
then applies a fresh relevant block keeps the index consistent. -/
theorem c5_witness :
    RevertSafe (updateConfirmedSetPure ccW5 wW5) ccW5.revertedBlocks = true ∧
    (ProcessConsensusChange false true ccW5 wW5).toOption.isSome = true := by
  have hI : IndexOK wW5 := by
    intro id q hq
    simp only [wW5, emptyWallet] at hq
    rw [Function.update_apply] at hq
    by_cases hid : id = 9
    · rw [if_pos hid] at hq
      obtain rfl : eW5 = q := by injection hq
      exact ⟨by rw [hid]; rfl, by simp [wW5]⟩
    · rw [if_neg hid] at hq
      cases hq
  refine ⟨by decide, ?_⟩
  obtain ⟨w', hw, _⟩ := c5_index_consistency ccW5 wW5 hI (by decide)
  rw [hw]
  rfl

theorem scoStepPure_round (keys : UnlockHash → Bool)
    (m : OutputID → Option SiacoinOutput) (d : SiacoinOutputDiff)
    (h : (if keys d.siacoinOutput.unlockHash then
        match d.direction with
        | .apply => decide (m d.id = none)
        | .revert => decide (m d.id = some d.siacoinOutput)
       else true) = true) :
    scoStepPure keys (scoStepPure keys m d)
      { d with direction := flipDirection d.direction } = m := by
  obtain ⟨dir, i, p⟩ := d
  by_cases hk : keys p.unlockHash
  · rw [if_pos hk] at h
    cases dir
    · have h0 : m i = none := of_decide_eq_true h
      unfold scoStepPure flipDirection
      simp only [if_pos hk]
      rw [Function.update_idem, ← h0, Function.update_eq_self]
    · have h0 : m i = some p := of_decide_eq_true h
      unfold scoStepPure flipDirection
      simp only [if_pos hk]
      rw [Function.update_idem, ← h0, Function.update_eq_self]
  · unfold scoStepPure flipDirection
    simp [hk]

theorem sfoStepPure_round (keys : UnlockHash → Bool)
    (m : OutputID → Option SiafundOutput) (d : SiafundOutputDiff)
    (h : (if keys d.siafundOutput.unlockHash then
        match d.direction with
        | .apply => decide (m d.id = none)
        | .revert => decide (m d.id = some d.siafundOutput)
       else true) = true) :
    sfoStepPure keys (sfoStepPure keys m d)
      { d with direction := flipDirection d.direction } = m := by
  obtain ⟨dir, i, p⟩ := d
  by_cases hk : keys p.unlockHash
  · rw [if_pos hk] at h
    cases dir
    · have h0 : m i = none := of_decide_eq_true h
      unfold sfoStepPure flipDirection
      simp only [if_pos hk]
      rw [Function.update_idem, ← h0, Function.update_eq_self]
    · have h0 : m i = some p := of_decide_eq_true h
      unfold sfoStepPure flipDirection
      simp only [if_pos hk]
      rw [Function.update_idem, ← h0, Function.update_eq_self]
  · unfold sfoStepPure flipDirection
    simp [hk]

theorem scoRound (keys : UnlockHash → Bool) :
    ∀ (ds : List SiacoinOutputDiff) (m : OutputID → Option SiacoinOutput),
      scoRoundOK keys m ds = true →
      (mirrorSco ds).foldl (scoStepPure keys) (ds.foldl (scoStepPure keys) m) = m := by
  intro ds
  induction ds with
  | nil => intro m _; rfl
  | cons d ds ih =>
      intro m h
      rw [scoRoundOK, Bool.and_eq_true] at h
      have hmir : mirrorSco (d :: ds) =
          mirrorSco ds ++ [{ d with direction := flipDirection d.direction }] := by
        unfold mirrorSco
        rw [List.map_cons, List.reverse_cons]
      rw [List.foldl_cons, hmir, List.foldl_append,
        ih (scoStepPure keys m d) h.2, List.foldl_cons, List.foldl_nil]
      exact scoStepPure_round keys m d h.1

theorem sfoRound (keys : UnlockHash → Bool) :
    ∀ (ds : List SiafundOutputDiff) (m : OutputID → Option SiafundOutput),
      sfoRoundOK keys m ds = true →
      (mirrorSfo ds).foldl (sfoStepPure keys) (ds.foldl (sfoStepPure keys) m) = m := by
  intro ds
  induction ds with
  | nil => intro m _; rfl
  | cons d ds ih =>
      intro m h
      rw [sfoRoundOK, Bool.and_eq_true] at h
      have hmir : mirrorSfo (d :: ds) =
          mirrorSfo ds ++ [{ d with direction := flipDirection d.direction }] := by
        unfold mirrorSfo
        rw [List.map_cons, List.reverse_cons]
      rw [List.foldl_cons, hmir, List.foldl_append,
        ih (sfoStepPure keys m d) h.2, List.foldl_cons, List.foldl_nil]
      exact sfoStepPure_round keys m d h.1

theorem poolRound (ds : List SiafundPoolDiff) (p : Currency)
    (h : poolRoundOK p ds = true) :
    (mirrorPool ds).foldl poolStep (ds.foldl poolStep p) = p := by
  cases ds with
  | nil => rfl
  | cons d ds2 =>
      have hp : poolVal { d with direction := flipDirection d.direction } = p :=
        of_decide_eq_true h
      unfold mirrorPool
      rw [List.map_cons, List.reverse_cons, List.foldl_append, List.foldl_cons,
        List.foldl_nil, poolStep_eq_poolVal, hp]

theorem revertTxn_setLedger (w : Wallet) (a : OutputID → Option SiacoinOutput)
    (b : OutputID → Option SiafundOutput) (c : Currency) (t : Transaction) :
    revertTxn (setLedger w a b c) t = setLedger (revertTxn w t) a b c := by
  unfold revertTxn setLedger
  dsimp only
  cases hgl : w.processedTransactions.getLast? with
  | none => rfl
  | some lastPT =>
      simp only []
      by_cases heq : t.id = lastPT.transactionID
      · rw [if_pos heq, if_pos heq]
      · rw [if_neg heq, if_neg heq]

theorem foldl_revertTxn_setLedger (a : OutputID → Option SiacoinOutput)
    (b : OutputID → Option SiafundOutput) (c : Currency) :
    ∀ (ts : List Transaction) (w : Wallet),
      ts.foldl revertTxn (setLedger w a b c) = setLedger (ts.foldl revertTxn w) a b c := by
  intro ts
  induction ts with
  | nil => intro w; rfl
  | cons t ts ih =>
      intro w
      rw [List.foldl_cons, List.foldl_cons, revertTxn_setLedger, ih]

theorem revertBlock_setLedger (w : Wallet) (a : OutputID → Option SiacoinOutput)
    (b : OutputID → Option SiafundOutput) (c : Currency) (bl : Block) :
    revertBlock (setLedger w a b c) bl =
      (revertBlock w bl).map (fun v => setLedger v a b c) := by
  unfold revertBlock
  rw [foldl_revertTxn_setLedger]
  dsimp only [setLedger]
  by_cases hc : bl.minerPayouts.any
      (fun mp => (bl.transactions.reverse.foldl revertTxn w).keys mp.2.unlockHash) = true
  · rw [if_pos hc, if_pos hc]
    cases hgl : (bl.transactions.reverse.foldl revertTxn w).processedTransactions.getLast? with
    | none => rfl
    | some e => rfl
  · rw [if_neg hc, if_neg hc]
    rfl

theorem applyTxn_shape (b : Block) (w : Wallet) (t : Transaction) :
    ∃ ho hc l m, applyTxn b w t =
      { w with
        historicOutputs := ho
        historicClaimStarts := hc
        processedTransactions := l
        processedTransactionMap := m } := by
  unfold applyTxn
  simp only []
  split
  · exact ⟨_, _, _, _, rfl⟩
  · exact ⟨_, _, w.processedTransactions, w.processedTransactionMap, rfl⟩

theorem foldl_applyTxn_shape (b : Block) :
    ∀ (ts : List Transaction) (w : Wallet), ∃ ho hc l m,
      ts.foldl (applyTxn b) w =
        { w with
          historicOutputs := ho
          historicClaimStarts := hc
          processedTransactions := l
          processedTransactionMap := m } := by
  intro ts
  induction ts with
  | nil => intro w; exact ⟨_, _, w.processedTransactions, w.processedTransactionMap, rfl⟩
  | cons t ts ih =>
      intro w
      obtain ⟨h1, h2, l1, m1, e1⟩ := applyTxn_shape b w t
      obtain ⟨h3, h4, l2, m2, e2⟩ := ih (applyTxn b w t)
      rw [List.foldl_cons, e2, e1]
      exact ⟨_, _, _, _, rfl⟩

theorem applyTxn_log (b : Block) (w : Wallet) (t : Transaction) :
    (applyTxn b w t).processedTransactions =
      (if (buildTxnAcc w.keys w.siafundPool w.consensusSetHeight
            w.historicOutputs w.historicClaimStarts t).relevant
       then w.processedTransactions ++ [applyTxnPT w b t]
       else w.processedTransactions) ∧
    (applyTxn b w t).processedTransactionMap =
      (if (buildTxnAcc w.keys w.siafundPool w.consensusSetHeight
            w.historicOutputs w.historicClaimStarts t).relevant
       then Function.update w.processedTransactionMap t.id (some (applyTxnPT w b t))
       else w.processedTransactionMap) := by
  unfold applyTxn
  simp only []
  split
  · exact ⟨rfl, rfl⟩
  · exact ⟨rfl, rfl⟩

theorem revert_apply_txns (B : Block) :
    ∀ (ts : List Transaction) (w : Wallet),
      (ts.map Transaction.id).Nodup →
      (∀ t ∈ ts, w.processedTransactionMap t.id = none ∧
        t.id ∉ w.processedTransactions.map ProcessedTransaction.transactionID) →
      ts.reverse.foldl revertTxn (ts.foldl (applyTxn B) w) =
        { ts.foldl (applyTxn B) w with
          processedTransactions := w.processedTransactions
          processedTransactionMap := w.processedTransactionMap } := by
  intro ts
  induction ts with
  | nil => intro w _ _; rfl
  | cons t ts ih =>
      intro w hnd hf
      have hnd0 : t.id ∉ ts.map Transaction.id := (List.nodup_cons.mp hnd).1
      have hnd' : (ts.map Transaction.id).Nodup := (List.nodup_cons.mp hnd).2
      obtain ⟨hmapt, hlogt⟩ := hf t (List.mem_cons_self t ts)
      have hAlog := applyTxn_log B w t
      have hf' : ∀ u ∈ ts,
          (applyTxn B w t).processedTransactionMap u.id = none ∧
          u.id ∉ (applyTxn B w t).processedTransactions.map
            ProcessedTransaction.transactionID := by
        intro u hu
        have hne : u.id ≠ t.id := fun he =>
          hnd0 (he ▸ List.mem_map_of_mem Transaction.id hu)
        obtain ⟨hm, hl⟩ := hf u (List.mem_cons_of_mem t hu)
        constructor
        · rw [hAlog.2]
          split
          · rw [Function.update_noteq hne]
            exact hm
          · exact hm
        · rw [hAlog.1]
          split
          · rw [List.map_append, List.mem_append]
            rintro (hin | hin)
            · exact hl hin
            · exact hne (by simpa using hin)
          · exact hl
      have hstep : (t :: ts).reverse.foldl revertTxn ((t :: ts).foldl (applyTxn B) w) =
          revertTxn (ts.reverse.foldl revertTxn
            (ts.foldl (applyTxn B) (applyTxn B w t))) t := by
        rw [List.reverse_cons, List.foldl_append]
        rfl
      rw [hstep, ih (applyTxn B w t) hnd' hf']
      by_cases hrel : (buildTxnAcc w.keys w.siafundPool w.consensusSetHeight
          w.historicOutputs w.historicClaimStarts t).relevant = true
      · have hpt : (applyTxn B w t).processedTransactions =
            w.processedTransactions ++ [applyTxnPT w B t] := by
          rw [hAlog.1, if_pos hrel]
        have hmap : (applyTxn B w t).processedTransactionMap =
            Function.update w.processedTransactionMap t.id (some (applyTxnPT w B t)) := by
          rw [hAlog.2, if_pos hrel]
        unfold revertTxn
        dsimp only
        rw [hpt, hmap, List.getLast?_concat]
        simp only []
        rw [if_pos (show t.id = (applyTxnPT w B t).transactionID from rfl)]
        rw [List.dropLast_concat, Function.update_idem, ← hmapt, Function.update_eq_self]
        rfl
      · have hpt : (applyTxn B w t).processedTransactions = w.processedTransactions := by
          rw [hAlog.1, if_neg hrel]
        have hmap : (applyTxn B w t).processedTransactionMap =
            w.processedTransactionMap := by
          rw [hAlog.2, if_neg hrel]
        unfold revertTxn
        dsimp only
        rw [hpt, hmap]
        cases hgl : w.processedTransactions.getLast? with
        | none => rfl
        | some lastPT =>
            have hne2 : ¬ t.id = lastPT.transactionID := by
              intro he
              apply hlogt
              rw [he]
              exact List.mem_map_of_mem ProcessedTransaction.transactionID
                (List.mem_of_mem_getLast? (by simp [hgl]))
            simp only []
            rw [if_neg hne2, List.foldl_cons]
theorem applyBlock_minerRelevant (w : Wallet) (B : Block) :
    (B.minerPayouts.foldl (mpStep w.keys (u64 (w.consensusSetHeight + 1)))
        ⟨[], false, w.historicOutputs⟩).relevant =
      B.minerPayouts.any (fun mp => w.keys mp.2.unlockHash) := by
  rw [foldl_mpStep]
  simp

theorem revertBlock_round_rel (B : Block) (R w : Wallet) (e : ProcessedTransaction)
    (hk : R.keys = w.keys)
    (hh2 : R.consensusSetHeight = u64 (w.consensusSetHeight + 1))
    (hsc : R.siacoinOutputs = w.siacoinOutputs)
    (hsf : R.siafundOutputs = w.siafundOutputs)
    (hpool : R.siafundPool = w.siafundPool)
    (hpt : R.processedTransactions = w.processedTransactions ++ [e])
    (hm : R.processedTransactionMap =
      Function.update w.processedTransactionMap e.transactionID (some e))
    (heid : e.transactionID = B.id)
    (hmapB : w.processedTransactionMap B.id = none)
    (hany : B.minerPayouts.any (fun mp => w.keys mp.2.unlockHash) = true)
    (hndt : (B.transactions.map Transaction.id).Nodup)
    (hfR : ∀ t ∈ B.transactions, R.processedTransactionMap t.id = none ∧
      t.id ∉ R.processedTransactions.map ProcessedTransaction.transactionID)
    (hh : w.consensusSetHeight < U64MOD) :
    ∃ v, revertBlock (B.transactions.foldl (applyTxn B) R) B = .ok v ∧
      v.processedTransactions = w.processedTransactions ∧
      v.processedTransactionMap = w.processedTransactionMap ∧
      v.consensusSetHeight = w.consensusSetHeight ∧
      v.keys = w.keys ∧ v.siacoinOutputs = w.siacoinOutputs ∧
      v.siafundOutputs = w.siafundOutputs ∧ v.siafundPool = w.siafundPool := by
  unfold revertBlock
  rw [revert_apply_txns B B.transactions R hndt hfR]
  obtain ⟨ho, hc, l, m, hsh⟩ := foldl_applyTxn_shape B B.transactions R
  rw [hsh]
  dsimp only
  rw [hk, hany, if_pos rfl, hpt, List.getLast?_concat]
  simp only []
  refine ⟨_, rfl, ?_, ?_, ?_, ?_, ?_, ?_, ?_⟩
  · dsimp only
    rw [List.dropLast_concat]
  · dsimp only
    rw [hm, heid, Function.update_idem, ← hmapB, Function.update_eq_self]
  · dsimp only
    rw [hh2]
    exact u64_dec_inc w.consensusSetHeight hh
  · rfl
  · exact hsc
  · exact hsf
  · exact hpool

theorem revertBlock_round_irrel (B : Block) (R w : Wallet)
    (hk : R.keys = w.keys)
    (hh2 : R.consensusSetHeight = u64 (w.consensusSetHeight + 1))
    (hsc : R.siacoinOutputs = w.siacoinOutputs)
    (hsf : R.siafundOutputs = w.siafundOutputs)
    (hpool : R.siafundPool = w.siafundPool)
    (hpt : R.processedTransactions = w.processedTransactions)
    (hm : R.processedTransactionMap = w.processedTransactionMap)
    (hany : B.minerPayouts.any (fun mp => w.keys mp.2.unlockHash) = false)
    (hndt : (B.transactions.map Transaction.id).Nodup)
    (hfR : ∀ t ∈ B.transactions, R.processedTransactionMap t.id = none ∧
      t.id ∉ R.processedTransactions.map ProcessedTransaction.transactionID)
    (hh : w.consensusSetHeight < U64MOD) :
    ∃ v, revertBlock (B.transactions.foldl (applyTxn B) R) B = .ok v ∧
      v.processedTransactions = w.processedTransactions ∧
      v.processedTransactionMap = w.processedTransactionMap ∧
      v.consensusSetHeight = w.consensusSetHeight ∧
      v.keys = w.keys ∧ v.siacoinOutputs = w.siacoinOutputs ∧
      v.siafundOutputs = w.siafundOutputs ∧ v.siafundPool = w.siafundPool := by
  unfold revertBlock
  rw [revert_apply_txns B B.transactions R hndt hfR]
  obtain ⟨ho, hc, l, m, hsh⟩ := foldl_applyTxn_shape B B.transactions R
  rw [hsh]
  dsimp only
  rw [hk, hany, if_neg (by simp)]
  refine ⟨_, rfl, ?_, ?_, ?_, ?_, ?_, ?_, ?_⟩
  · dsimp only
    exact hpt
  · dsimp only
    exact hm
  · dsimp only
    rw [hh2]
    exact u64_dec_inc w.consensusSetHeight hh
  · rfl
  · exact hsc
  · exact hsf
  · exact hpool

theorem revert_apply_block (w : Wallet) (B : Block)
    (hnd : (B.id :: B.transactions.map Transaction.id).Nodup)
    (hf : ∀ i ∈ B.id :: B.transactions.map Transaction.id,
      w.processedTransactionMap i = none ∧
      i ∉ w.processedTransactions.map ProcessedTransaction.transactionID)
    (hh : w.consensusSetHeight < U64MOD) :
    ∃ v, revertBlock (applyBlock w B) B = .ok v ∧
      v.processedTransactions = w.processedTransactions ∧
      v.processedTransactionMap = w.processedTransactionMap ∧
      v.consensusSetHeight = w.consensusSetHeight ∧
      v.keys = w.keys ∧
      v.siacoinOutputs = w.siacoinOutputs ∧
      v.siafundOutputs = w.siafundOutputs ∧
      v.siafundPool = w.siafundPool := by
  have hndt : (B.transactions.map Transaction.id).Nodup := (List.nodup_cons.mp hnd).2
  have hBid : B.id ∉ B.transactions.map Transaction.id := (List.nodup_cons.mp hnd).1
  obtain ⟨hfB1, hfB2⟩ := hf B.id (List.mem_cons_self _ _)
  unfold applyBlock
  simp only []
  split
  · next hrel =>
      have hany : B.minerPayouts.any (fun mp => w.keys mp.2.unlockHash) = true := by
        rw [← applyBlock_minerRelevant w B]
        exact hrel
      refine revertBlock_round_rel B _ w _ rfl rfl rfl rfl rfl rfl rfl rfl hfB1 hany hndt
        ?_ hh
      intro t ht
      have hne : t.id ≠ B.id := fun he =>
        hBid (he ▸ List.mem_map_of_mem Transaction.id ht)
      obtain ⟨hm', hl'⟩ := hf t.id
        (List.mem_cons_of_mem _ (List.mem_map_of_mem Transaction.id ht))
      constructor
      · dsimp only
        rw [Function.update_noteq hne]
        exact hm'
      · dsimp only
        rw [List.map_append, List.mem_append]
        rintro (hin | hin)
        · exact hl' hin
        · exact hne (by simpa using hin)
  · next hrel =>
      have hany : B.minerPayouts.any (fun mp => w.keys mp.2.unlockHash) = false := by
        rw [← applyBlock_minerRelevant w B]
        exact Bool.eq_false_iff.mpr hrel
      refine revertBlock_round_irrel B _ w rfl rfl rfl rfl rfl rfl rfl hany hndt ?_ hh
      intro t ht
      obtain ⟨hm', hl'⟩ := hf t.id
        (List.mem_cons_of_mem _ (List.mem_map_of_mem Transaction.id ht))
      exact ⟨hm', hl'⟩
theorem applyBlock_shape (w : Wallet) (b : Block) :
    ∃ ho hc l m, applyBlock w b =
      { w with
        consensusSetHeight := u64 (w.consensusSetHeight + 1)
        historicOutputs := ho
        historicClaimStarts := hc
        processedTransactions := l
        processedTransactionMap := m } := by
  unfold applyBlock
  simp only []
  split
  · obtain ⟨ho, hc, l, m, he⟩ := foldl_applyTxn_shape b b.transactions _
    rw [he]
    exact ⟨_, _, _, _, rfl⟩
  · obtain ⟨ho, hc, l, m, he⟩ := foldl_applyTxn_shape b b.transactions _
    rw [he]
    exact ⟨_, _, _, _, rfl⟩

theorem processCC_eq (debug : Bool) (cc : ConsensusChange) (w wU r : Wallet)
    (hucs : updateConfirmedSet debug cc w = .ok wU)
    (hrev : revertHistory cc wU = .ok r) :
    ProcessConsensusChange debug true cc w = .ok (applyHistory cc r) := by
  unfold ProcessConsensusChange
  rw [if_pos rfl, hucs]
  show (revertHistory cc wU).bind _ = _
  rw [hrev]
  rfl

/-- C2: applying one block through a consensus change and then processing
the mirror-image consensus change that reverts exactly that block restores
the Output Ledger maps, the tracked height, the pool level, and the
confirmed log together with its index to their pre-apply values.  The
hypotheses say the diff stream is consistent with the ledger (the mirror
data the consensus layer guarantees) and the block's identifiers are fresh
and distinct. -/
theorem c2_apply_revert_round_trip (w : Wallet) (B : Block)
    (dssc : List SiacoinOutputDiff) (dssf : List SiafundOutputDiff)
    (dsp : List SiafundPoolDiff) (sy sy2 : Bool)
    (hh : w.consensusSetHeight < U64MOD)
    (hsc : scoRoundOK w.keys w.siacoinOutputs dssc = true)
    (hsf : sfoRoundOK w.keys w.siafundOutputs dssf = true)
    (hp : poolRoundOK w.siafundPool dsp = true)
    (hnd : (B.id :: B.transactions.map Transaction.id).Nodup)
    (hf : ∀ i ∈ B.id :: B.transactions.map Transaction.id,
      w.processedTransactionMap i = none ∧
      i ∉ w.processedTransactions.map ProcessedTransaction.transactionID) :
    ∃ w1 w2,
      ProcessConsensusChange false true
        ⟨dssc, dssf, dsp, [], [B], sy⟩ w = .ok w1 ∧
      ProcessConsensusChange false true
        ⟨mirrorSco dssc, mirrorSfo dssf, mirrorPool dsp, [B], [], sy2⟩ w1 = .ok w2 ∧
      w2.siacoinOutputs = w.siacoinOutputs ∧
      w2.siafundOutputs = w.siafundOutputs ∧
      w2.siafundPool = w.siafundPool ∧
      w2.consensusSetHeight = w.consensusSetHeight ∧
      w2.processedTransactions = w.processedTransactions ∧
      w2.processedTransactionMap = w.processedTransactionMap := by
  obtain ⟨v, hv, hptv, hmapv, hhtv, hkeysv, hscv, hsfv, hpoolv⟩ :=
    revert_apply_block (updateConfirmedSetPure ⟨dssc, dssf, dsp, [], [B], sy⟩ w) B hnd hf hh
  obtain ⟨ho1, hc1, l1, m1, hW1⟩ :=
    applyBlock_shape (updateConfirmedSetPure ⟨dssc, dssf, dsp, [], [B], sy⟩ w) B
  have hrb : revertBlock (updateConfirmedSetPure
        ⟨mirrorSco dssc, mirrorSfo dssf, mirrorPool dsp, [B], [], sy2⟩
        (applyBlock (updateConfirmedSetPure ⟨dssc, dssf, dsp, [], [B], sy⟩ w) B)) B =
      .ok (setLedger v
        ((mirrorSco dssc).foldl
          (scoStepPure (applyBlock (updateConfirmedSetPure ⟨dssc, dssf, dsp, [], [B], sy⟩ w) B).keys)
          (applyBlock (updateConfirmedSetPure ⟨dssc, dssf, dsp, [], [B], sy⟩ w) B).siacoinOutputs)
        ((mirrorSfo dssf).foldl
          (sfoStepPure (applyBlock (updateConfirmedSetPure ⟨dssc, dssf, dsp, [], [B], sy⟩ w) B).keys)
          (applyBlock (updateConfirmedSetPure ⟨dssc, dssf, dsp, [], [B], sy⟩ w) B).siafundOutputs)
        ((mirrorPool dsp).foldl poolStep
          (applyBlock (updateConfirmedSetPure ⟨dssc, dssf, dsp, [], [B], sy⟩ w) B).siafundPool)) := by
    rw [show updateConfirmedSetPure
        ⟨mirrorSco dssc, mirrorSfo dssf, mirrorPool dsp, [B], [], sy2⟩
        (applyBlock (updateConfirmedSetPure ⟨dssc, dssf, dsp, [], [B], sy⟩ w) B) =
      setLedger (applyBlock (updateConfirmedSetPure ⟨dssc, dssf, dsp, [], [B], sy⟩ w) B)
        ((mirrorSco dssc).foldl
          (scoStepPure (applyBlock (updateConfirmedSetPure ⟨dssc, dssf, dsp, [], [B], sy⟩ w) B).keys)
          (applyBlock (updateConfirmedSetPure ⟨dssc, dssf, dsp, [], [B], sy⟩ w) B).siacoinOutputs)
        ((mirrorSfo dssf).foldl
          (sfoStepPure (applyBlock (updateConfirmedSetPure ⟨dssc, dssf, dsp, [], [B], sy⟩ w) B).keys)
          (applyBlock (updateConfirmedSetPure ⟨dssc, dssf, dsp, [], [B], sy⟩ w) B).siafundOutputs)
        ((mirrorPool dsp).foldl poolStep
          (applyBlock (updateConfirmedSetPure ⟨dssc, dssf, dsp, [], [B], sy⟩ w) B).siafundPool)
      from rfl]
    rw [revertBlock_setLedger, hv]
    rfl
  refine ⟨applyBlock (updateConfirmedSetPure ⟨dssc, dssf, dsp, [], [B], sy⟩ w) B,
    setLedger v
      ((mirrorSco dssc).foldl
        (scoStepPure (applyBlock (updateConfirmedSetPure ⟨dssc, dssf, dsp, [], [B], sy⟩ w) B).keys)
        (applyBlock (updateConfirmedSetPure ⟨dssc, dssf, dsp, [], [B], sy⟩ w) B).siacoinOutputs)
      ((mirrorSfo dssf).foldl
        (sfoStepPure (applyBlock (updateConfirmedSetPure ⟨dssc, dssf, dsp, [], [B], sy⟩ w) B).keys)
        (applyBlock (updateConfirmedSetPure ⟨dssc, dssf, dsp, [], [B], sy⟩ w) B).siafundOutputs)
      ((mirrorPool dsp).foldl poolStep
        (applyBlock (updateConfirmedSetPure ⟨dssc, dssf, dsp, [], [B], sy⟩ w) B).siafundPool),
    ?_, ?_, ?_, ?_, ?_, ?_, ?_, ?_⟩
  · exact processCC_eq false ⟨dssc, dssf, dsp, [], [B], sy⟩ w _ _
      (updateConfirmedSet_false _ w) rfl
  · refine processCC_eq false ⟨mirrorSco dssc, mirrorSfo dssf, mirrorPool dsp, [B], [], sy2⟩
      _ _ _ (updateConfirmedSet_false _ _) ?_
    unfold revertHistory
    rw [List.foldlM_cons, hrb]
    rfl
  · show (mirrorSco dssc).foldl
        (scoStepPure (applyBlock (updateConfirmedSetPure ⟨dssc, dssf, dsp, [], [B], sy⟩ w) B).keys)
        (applyBlock (updateConfirmedSetPure ⟨dssc, dssf, dsp, [], [B], sy⟩ w) B).siacoinOutputs =
      w.siacoinOutputs
    rw [hW1]
    exact scoRound w.keys dssc w.siacoinOutputs hsc
  · show (mirrorSfo dssf).foldl
        (sfoStepPure (applyBlock (updateConfirmedSetPure ⟨dssc, dssf, dsp, [], [B], sy⟩ w) B).keys)
        (applyBlock (updateConfirmedSetPure ⟨dssc, dssf, dsp, [], [B], sy⟩ w) B).siafundOutputs =
      w.siafundOutputs
    rw [hW1]
    exact sfoRound w.keys dssf w.siafundOutputs hsf
  · show (mirrorPool dsp).foldl poolStep
        (applyBlock (updateConfirmedSetPure ⟨dssc, dssf, dsp, [], [B], sy⟩ w) B).siafundPool =
      w.siafundPool
    rw [hW1]
    exact poolRound dsp w.siafundPool hp
  · exact hhtv
  · exact hptv
  · exact hmapv

/-- C2 witness: a concrete owned block (miner payout, spend of output 39,
creation of output 40, pool bump) is applied and exactly reverted: height,
log, pool and ledger return to their prior values. -/
theorem c2_witness :
    scoRoundOK wW2.keys wW2.siacoinOutputs dsW2 = true ∧
    poolRoundOK wW2.siafundPool dspW2 = true ∧
    ((ProcessConsensusChange false true ⟨dsW2, [], dspW2, [], [bW2], true⟩ wW2).bind
      (fun u => ProcessConsensusChange false true
        ⟨mirrorSco dsW2, mirrorSfo [], mirrorPool dspW2, [bW2], [], false⟩ u)).toOption.map
      (fun v => (v.consensusSetHeight, v.processedTransactions.length, v.siafundPool,
        v.siacoinOutputs 39, v.siacoinOutputs 40)) =
      some (5, 0, 2, some ⟨25, 1⟩, none) := by
  refine ⟨by decide, by decide, ?_⟩
  obtain ⟨w1, w2, h1, h2, hsc2, hsf2, hp2, hht2, hpt2, hmap2⟩ :=
    c2_apply_revert_round_trip wW2 bW2 dsW2 [] dspW2 true false (by decide) (by decide)
      (by decide) (by decide) (by decide) (by decide)
  rw [h1]
  show (ProcessConsensusChange false true
      ⟨mirrorSco dsW2, mirrorSfo [], mirrorPool dspW2, [bW2], [], false⟩ w1).toOption.map
      (fun v => (v.consensusSetHeight, v.processedTransactions.length, v.siafundPool,
        v.siacoinOutputs 39, v.siacoinOutputs 40)) = some (5, 0, 2, some ⟨25, 1⟩, none)
  rw [h2]
  show some (w2.consensusSetHeight, w2.processedTransactions.length, w2.siafundPool,
      w2.siacoinOutputs 39, w2.siacoinOutputs 40) = some (5, 0, 2, some ⟨25, 1⟩, none)
  rw [hsc2, hp2, hht2, hpt2]
  decide
